import Mathlib

/-!
Verification of the ChannelChat realtime messaging core.

This file gives a shallow embedding, in Lean, of the parts of the
ChannelChat repository that its specification makes claims about:

* the key management and message cipher (ChatApp/message_encryption.py),
* the content compressor (ChatApp/compression.py),
* the presence-aware connection registry (ChatApp/ws_connection_manager.py)
  and the legacy registry embedded in ChatApp/main.py,
* the websocket event handlers and receive loops
  (ChatApp/ws_routes.py, ChatApp/ws_endpoint.py).

Python dictionaries are modelled as association lists, Python sets as
duplicate-free lists, byte strings and text as lists of naturals
(byte values, respectively unicode code points), and wall-clock time as a
natural number of seconds.  External libraries (AES-GCM, zstandard, the
PBKDF2 key-derivation function) are modelled as parameters bundled in
structures; theorems that rely on a library guarantee (such as AEAD
round-tripping) take that guarantee as an explicit hypothesis, which the
accompanying witness theorems discharge with concrete instances.
-/

namespace ChannelChat

set_option maxRecDepth 8000

/-! ### Python dictionaries as association lists -/

/-- Lookup in a Python-dict model: first binding of the key, if any. -/
def dGet {α β : Type} [DecidableEq α] : List (α × β) → α → Option β
  | [], _ => none
  | (k, v) :: rest, a => if k = a then some v else dGet rest a

/-- Lookup with a default value, as in Python dict.get(k, dflt). -/
def dGetD {α β : Type} [DecidableEq α] (d : List (α × β)) (a : α) (dflt : β) : β :=
  (dGet d a).getD dflt

/-- Membership test, as in the Python expression k in d. -/
def dMem {α β : Type} [DecidableEq α] (d : List (α × β)) (a : α) : Bool :=
  (dGet d a).isSome

/-- Assignment d[k] = v: replaces the binding in place or appends a new one
(Python dicts preserve insertion order). -/
def dSet {α β : Type} [DecidableEq α] : List (α × β) → α → β → List (α × β)
  | [], a, v => [(a, v)]
  | (k, w) :: rest, a, v => if k = a then (a, v) :: rest else (k, w) :: dSet rest a v

/-- Deletion del d[k] (a no-op when the key is absent, matching
dict.pop(k, None)); drops every binding of the key, which on the
duplicate-free association lists produced by dSet and dViv agrees with
Python dict deletion. -/
def dDel {α β : Type} [DecidableEq α] (d : List (α × β)) (a : α) : List (α × β) :=
  d.filter (fun kv => kv.1 ≠ a)

/-- Auto-vivification performed by reading defaultdict d[k]: inserts the
default binding when the key is absent. -/
def dViv {α β : Type} [DecidableEq α] (d : List (α × β)) (a : α) (dflt : β) :
    List (α × β) :=
  if dMem d a then d else d ++ [(a, dflt)]

/-! ### Python sets as duplicate-free lists -/

/-- Set union with a singleton: s | \x7bx\x7d on a Python set. -/
def setInsert {α : Type} [DecidableEq α] (x : α) (s : List α) : List α :=
  if x ∈ s then s else x :: s

/-- Set difference with a singleton: s - \x7bx\x7d on a Python set. -/
def setRemove {α : Type} [DecidableEq α] (x : α) (s : List α) : List α :=
  s.filter (fun y => y ≠ x)

/-! ### UTF-8, as used by the Python str.encode and bytes.decode calls

A Python str is modelled as its sequence of unicode code points.  A code
point is encodable exactly when it is in range and not a surrogate. -/

/-- A unicode code point that Python str.encode("utf-8") accepts. -/
def ValidCp (c : Nat) : Prop := c < 0x110000 ∧ (c < 0xD800 ∨ 0xE000 ≤ c)

instance (c : Nat) : Decidable (ValidCp c) := by unfold ValidCp; infer_instance

/-- UTF-8 encoding of one code point. -/
def utf8EncodeChar (c : Nat) : List Nat :=
  if c < 0x80 then [c]
  else if c < 0x800 then [0xC0 + c / 64, 0x80 + c % 64]
  else if c < 0x10000 then [0xE0 + c / 4096, 0x80 + c / 64 % 64, 0x80 + c % 64]
  else [0xF0 + c / 262144, 0x80 + c / 4096 % 64, 0x80 + c / 64 % 64, 0x80 + c % 64]

/-- UTF-8 encoding of a code-point sequence (Python str.encode("utf-8")). -/
def utf8Encode (s : List Nat) : List Nat :=
  s.flatMap utf8EncodeChar

/-- Whether a byte is a UTF-8 continuation byte. -/
def contByte (b : Nat) : Bool :=
  decide (0x80 ≤ b) && decide (b < 0xC0)

/-- One-byte-at-a-time strict UTF-8 decoder.  The state is the number of
continuation bytes still expected, the code point accumulated so far, and the
smallest code point the current sequence is allowed to produce (the overlong
check).  At a sequence boundary the state is 0, 0, 0. -/
def utf8DecodeAux : List Nat → Nat → Nat → Nat → Option (List Nat)
  | [], 0, _, _ => some []
  | [], _ + 1, _, _ => none
  | b :: rest, 0, _, _ =>
      if b < 0x80 then (utf8DecodeAux rest 0 0 0).map (fun cs => b :: cs)
      else if b < 0xC2 then none
      else if b < 0xE0 then utf8DecodeAux rest 1 (b - 0xC0) 0x80
      else if b < 0xF0 then utf8DecodeAux rest 2 (b - 0xE0) 0x800
      else if b < 0xF5 then utf8DecodeAux rest 3 (b - 0xF0) 0x10000
      else none
  | b :: rest, need + 1, acc, lo =>
      if contByte b then
        if need = 0 then
          if lo ≤ acc * 64 + (b - 0x80) ∧
              (acc * 64 + (b - 0x80) < 0xD800 ∨ 0xE000 ≤ acc * 64 + (b - 0x80)) ∧
              acc * 64 + (b - 0x80) < 0x110000 then
            (utf8DecodeAux rest 0 0 0).map (fun cs => (acc * 64 + (b - 0x80)) :: cs)
          else none
        else utf8DecodeAux rest need (acc * 64 + (b - 0x80)) lo
      else none

/-- Strict UTF-8 decoding (Python bytes.decode("utf-8"), which rejects
malformed, overlong and surrogate sequences); none models UnicodeDecodeError. -/
def utf8Decode (bs : List Nat) : Option (List Nat) :=
  utf8DecodeAux bs 0 0 0

/-! ### Base64, as used by base64.b64encode and base64.b64decode -/

/-- The base64 alphabet: sextet value to ASCII character code. -/
def b64Char (v : Nat) : Nat :=
  if v < 26 then 65 + v
  else if v < 52 then 97 + (v - 26)
  else if v < 62 then 48 + (v - 52)
  else if v = 62 then 43
  else 47

/-- Inverse of the base64 alphabet; none on a character outside it. -/
def b64CharInv (ch : Nat) : Option Nat :=
  if 65 ≤ ch ∧ ch ≤ 90 then some (ch - 65)
  else if 97 ≤ ch ∧ ch ≤ 122 then some (26 + (ch - 97))
  else if 48 ≤ ch ∧ ch ≤ 57 then some (52 + (ch - 48))
  else if ch = 43 then some 62
  else if ch = 47 then some 63
  else none

/-- base64.b64encode on a byte list, producing ASCII character codes
(61 is the padding character). -/
def b64encode : List Nat → List Nat
  | [] => []
  | [a] => [b64Char (a / 4), b64Char (a % 4 * 16), 61, 61]
  | [a, b] => [b64Char (a / 4), b64Char (a % 4 * 16 + b / 16), b64Char (b % 16 * 4), 61]
  | a :: b :: c :: rest =>
      b64Char (a / 4) :: b64Char (a % 4 * 16 + b / 16) ::
        b64Char (b % 16 * 4 + c / 64) :: b64Char (c % 64) :: b64encode rest

/-- base64.b64decode; none models binascii.Error on malformed input. -/
def b64decode : List Nat → Option (List Nat)
  | [] => some []
  | w :: x :: y :: z :: rest =>
      if y = 61 ∧ z = 61 ∧ rest = [] then
        match b64CharInv w, b64CharInv x with
        | some s1, some s2 => some [s1 * 4 + s2 / 16]
        | _, _ => none
      else if z = 61 ∧ rest = [] then
        match b64CharInv w, b64CharInv x, b64CharInv y with
        | some s1, some s2, some s3 =>
            some [s1 * 4 + s2 / 16, s2 % 16 * 16 + s3 / 4]
        | _, _, _ => none
      else
        match b64CharInv w, b64CharInv x, b64CharInv y, b64CharInv z with
        | some s1, some s2, some s3, some s4 =>
            match b64decode rest with
            | some bs =>
                some ((s1 * 4 + s2 / 16) :: (s2 % 16 * 16 + s3 / 4) ::
                  (s3 % 4 * 64 + s4) :: bs)
            | none => none
        | _, _, _, _ => none
  | _ => none

/-! ### Codec round-trip lemmas -/

/-- The base64 alphabet never produces the padding character. -/
theorem b64Char_ne_pad (v : Nat) : b64Char v ≠ 61 := by
  unfold b64Char
  repeat' split
  all_goals omega

/-- The base64 alphabet maps are mutually inverse on sextets. -/
theorem b64CharInv_b64Char : ∀ v : Nat, v < 64 → b64CharInv (b64Char v) = some v := by
  decide

/-- base64 decoding inverts base64 encoding on byte lists. -/
theorem b64_roundtrip : ∀ bs : List Nat, (∀ b ∈ bs, b < 256) →
    b64decode (b64encode bs) = some bs
  | [], _ => rfl
  | [a], h => by
      have ha : a < 256 := h a (by simp)
      have i1 := b64CharInv_b64Char (a / 4) (by omega)
      have i2 := b64CharInv_b64Char (a % 4 * 16) (by omega)
      simp [b64encode, b64decode, i1, i2]
      omega
  | [a, b], h => by
      have ha : a < 256 := h a (by simp)
      have hb : b < 256 := h b (by simp)
      have i1 := b64CharInv_b64Char (a / 4) (by omega)
      have i2 := b64CharInv_b64Char (a % 4 * 16 + b / 16) (by omega)
      have i3 := b64CharInv_b64Char (b % 16 * 4) (by omega)
      have n3 := b64Char_ne_pad (b % 16 * 4)
      simp [b64encode, b64decode, i1, i2, i3, n3]
      omega
  | a :: b :: c :: rest, h => by
      have ha : a < 256 := h a (by simp)
      have hb : b < 256 := h b (by simp)
      have hc : c < 256 := h c (by simp)
      have ih := b64_roundtrip rest (fun x hx => h x (by simp [hx]))
      have i1 := b64CharInv_b64Char (a / 4) (by omega)
      have i2 := b64CharInv_b64Char (a % 4 * 16 + b / 16) (by omega)
      have i3 := b64CharInv_b64Char (b % 16 * 4 + c / 64) (by omega)
      have i4 := b64CharInv_b64Char (c % 64) (by omega)
      have n3 := b64Char_ne_pad (b % 16 * 4 + c / 64)
      have n4 := b64Char_ne_pad (c % 64)
      simp [b64encode, b64decode, i1, i2, i3, i4, n3, n4, ih]
      omega

/-- UTF-8 encodings consist of bytes. -/
theorem utf8EncodeChar_lt (c : Nat) (h : ValidCp c) :
    ∀ b ∈ utf8EncodeChar c, b < 256 := by
  obtain ⟨h1, _⟩ := h
  unfold utf8EncodeChar
  repeat' split
  all_goals simp_all
  all_goals omega

/-- UTF-8 encodings of code-point lists consist of bytes. -/
theorem utf8Encode_lt (s : List Nat) (h : ∀ c ∈ s, ValidCp c) :
    ∀ b ∈ utf8Encode s, b < 256 := by
  intro b hb
  simp only [utf8Encode, List.mem_flatMap] at hb
  obtain ⟨c, hc, hbc⟩ := hb
  exact utf8EncodeChar_lt c (h c hc) b hbc

/-- Unfolding of the UTF-8 decoder at a sequence boundary. -/
theorem utf8Aux_start (b : Nat) (rest : List Nat) (acc lo : Nat) :
    utf8DecodeAux (b :: rest) 0 acc lo =
      if b < 0x80 then (utf8DecodeAux rest 0 0 0).map (fun cs => b :: cs)
      else if b < 0xC2 then none
      else if b < 0xE0 then utf8DecodeAux rest 1 (b - 0xC0) 0x80
      else if b < 0xF0 then utf8DecodeAux rest 2 (b - 0xE0) 0x800
      else if b < 0xF5 then utf8DecodeAux rest 3 (b - 0xF0) 0x10000
      else none := rfl

/-- Unfolding of the UTF-8 decoder at the final continuation byte. -/
theorem utf8Aux_one (b : Nat) (rest : List Nat) (acc lo : Nat) :
    utf8DecodeAux (b :: rest) 1 acc lo =
      if contByte b then
        if lo ≤ acc * 64 + (b - 0x80) ∧
            (acc * 64 + (b - 0x80) < 0xD800 ∨ 0xE000 ≤ acc * 64 + (b - 0x80)) ∧
            acc * 64 + (b - 0x80) < 0x110000 then
          (utf8DecodeAux rest 0 0 0).map (fun cs => (acc * 64 + (b - 0x80)) :: cs)
        else none
      else none := rfl

/-- Unfolding of the UTF-8 decoder two continuation bytes before the end. -/
theorem utf8Aux_two (b : Nat) (rest : List Nat) (acc lo : Nat) :
    utf8DecodeAux (b :: rest) 2 acc lo =
      if contByte b then utf8DecodeAux rest 1 (acc * 64 + (b - 0x80)) lo
      else none := rfl

/-- Unfolding of the UTF-8 decoder three continuation bytes before the end. -/
theorem utf8Aux_three (b : Nat) (rest : List Nat) (acc lo : Nat) :
    utf8DecodeAux (b :: rest) 3 acc lo =
      if contByte b then utf8DecodeAux rest 2 (acc * 64 + (b - 0x80)) lo
      else none := rfl

/-- A continuation byte of the form 0x80 + r with r < 64 passes the check. -/
theorem contByte_of_lt (r : Nat) (h : r < 64) : contByte (0x80 + r) = true := by
  simp only [contByte, Bool.and_eq_true, decide_eq_true_eq]
  omega

/-- Decoding a UTF-8 encoded code point at the head of a byte stream
recovers the code point and continues with the rest of the stream. -/
theorem utf8Decode_encodeChar (c : Nat) (h : ValidCp c) (bs : List Nat) :
    utf8DecodeAux (utf8EncodeChar c ++ bs) 0 0 0 =
      (utf8DecodeAux bs 0 0 0).map (fun cs => c :: cs) := by
  obtain ⟨hlt, hsur⟩ := h
  by_cases h1 : c < 0x80
  · simp only [utf8EncodeChar, if_pos h1, List.cons_append, List.nil_append]
    rw [utf8Aux_start, if_pos h1]
  · by_cases h2 : c < 0x800
    · simp only [utf8EncodeChar, if_neg h1, if_pos h2, List.cons_append,
        List.nil_append]
      rw [utf8Aux_start, if_neg (by omega), if_neg (by omega), if_pos (by omega)]
      rw [utf8Aux_one, if_pos (contByte_of_lt _ (by omega)), if_pos (by omega)]
      have e : (0xC0 + c / 64 - 0xC0) * 64 + (0x80 + c % 64 - 0x80) = c := by omega
      rw [e]
    · by_cases h3 : c < 0x10000
      · simp only [utf8EncodeChar, if_neg h1, if_neg h2, if_pos h3,
          List.cons_append, List.nil_append]
        rw [utf8Aux_start, if_neg (by omega), if_neg (by omega), if_neg (by omega),
          if_pos (by omega)]
        rw [utf8Aux_two, if_pos (contByte_of_lt _ (by omega))]
        rw [utf8Aux_one, if_pos (contByte_of_lt _ (by omega))]
        have e : ((0xE0 + c / 4096 - 0xE0) * 64 + (0x80 + c / 64 % 64 - 0x80)) * 64 +
            (0x80 + c % 64 - 0x80) = c := by omega
        rw [e, if_pos (by omega)]
      · simp only [utf8EncodeChar, if_neg h1, if_neg h2, if_neg h3,
          List.cons_append, List.nil_append]
        rw [utf8Aux_start, if_neg (by omega), if_neg (by omega), if_neg (by omega),
          if_neg (by omega), if_pos (by omega)]
        rw [utf8Aux_three, if_pos (contByte_of_lt _ (by omega))]
        rw [utf8Aux_two, if_pos (contByte_of_lt _ (by omega))]
        rw [utf8Aux_one, if_pos (contByte_of_lt _ (by omega))]
        have e : (((0xF0 + c / 262144 - 0xF0) * 64 + (0x80 + c / 4096 % 64 - 0x80)) *
            64 + (0x80 + c / 64 % 64 - 0x80)) * 64 + (0x80 + c % 64 - 0x80) = c := by
          omega
        rw [e, if_pos (by omega)]

/-- UTF-8 decoding inverts UTF-8 encoding on encodable code-point lists. -/
theorem utf8_roundtrip (s : List Nat) (h : ∀ c ∈ s, ValidCp c) :
    utf8Decode (utf8Encode s) = some s := by
  unfold utf8Decode
  induction s with
  | nil => rfl
  | cons c cs ih =>
      rw [show utf8Encode (c :: cs) = utf8EncodeChar c ++ utf8Encode cs from by
        simp [utf8Encode]]
      rw [utf8Decode_encodeChar c (h c (by simp)),
        ih (fun x hx => h x (by simp [hx]))]
      rfl

/-! ### Dictionary lemmas -/

/-- Looking up the key just assigned returns the assigned value. -/
theorem dGet_dSet_self {α β : Type} [DecidableEq α] (d : List (α × β)) (a : α)
    (v : β) : dGet (dSet d a v) a = some v := by
  induction d with
  | nil => simp [dSet, dGet]
  | cons kv rest ih =>
      obtain ⟨k, w⟩ := kv
      by_cases hk : k = a
      · simp [dSet, hk, dGet]
      · simp [dSet, hk, dGet, ih]

/-- Assignment does not disturb other keys. -/
theorem dGet_dSet_ne {α β : Type} [DecidableEq α] (d : List (α × β)) (a b : α)
    (v : β) (h : a ≠ b) : dGet (dSet d a v) b = dGet d b := by
  induction d with
  | nil => simp [dSet, dGet, h]
  | cons kv rest ih =>
      obtain ⟨k, w⟩ := kv
      by_cases hk : k = a
      · subst hk
        simp [dSet, dGet, h]
      · simp [dSet, hk, dGet, ih]

/-! ### Key management and message cipher (ChatApp/message_encryption.py)

Room ids and message contents are Python strings, modelled as code-point
lists; keys, nonces and ciphertexts are byte lists.  The AESGCM cipher and
the PBKDF2-HMAC-SHA256 derivation are library collaborators, modelled as
function parameters. -/

/-- The AESGCM class of the cryptography library: encryption and decryption
as functions of key, nonce, plaintext or ciphertext, and associated data.
none on decryption models the InvalidTag or ValueError raise. -/
structure AEAD where
  enc : List Nat → List Nat → List Nat → List Nat → List Nat
  dec : List Nat → List Nat → List Nat → List Nat → Option (List Nat)

/-- The library collaborators of the cipher: the AEAD and the PBKDF2
key-derivation function, taking the master key and the salt to a derived
key.  PBKDF2 is deterministic: same master key and salt, same output. -/
structure CipherLib where
  aead : AEAD
  kdf : List Nat → List Nat → List Nat

/-- The guarantees the cryptography library documents for AESGCM: decrypting
with the same key, nonce and associated data inverts encryption, and
ciphertexts are byte strings. -/
def AEADCorrect (a : AEAD) : Prop :=
  (∀ k n p aad, a.dec k n (a.enc k n p aad) aad = some p) ∧
  (∀ k n p aad, (∀ b ∈ p, b < 256) → ∀ b ∈ a.enc k n p aad, b < 256)

/-- KeyManagement state: the master key and the _room_keys cache mapping a
room id to the derived key and its creation timestamp. -/
structure KeyManagement where
  master_key : List Nat
  room_keys : List (List Nat × (List Nat × Nat))
  deriving DecidableEq

/-- KeyManagement.key_rotation_interval = timedelta(days=7), in seconds. -/
def key_rotation_interval : Nat := 7 * 86400

/-- KeyManagement._derive_room_key: PBKDF2 over the master key with the
utf-8 encoded room id as salt. -/
def derive_room_key (lib : CipherLib) (km : KeyManagement)
    (room_id : List Nat) : List Nat :=
  lib.kdf km.master_key (utf8Encode room_id)

/-- KeyManagement.get_room_key: returns the cached key if younger than the
rotation interval; otherwise derives a fresh one, stamps it with the current
time, and replaces the cache entry.  current_time is datetime.utcnow(),
in seconds. -/
def get_room_key (lib : CipherLib) (km : KeyManagement) (room_id : List Nat)
    (current_time : Nat) : List Nat × KeyManagement :=
  match dGet km.room_keys room_id with
  | some (key, creation_time) =>
      if current_time - creation_time < key_rotation_interval then (key, km)
      else
        let new_key := derive_room_key lib km room_id
        (new_key,
          { km with room_keys := dSet km.room_keys room_id (new_key, current_time) })
  | none =>
      let new_key := derive_room_key lib km room_id
      (new_key,
        { km with room_keys := dSet km.room_keys room_id (new_key, current_time) })

/-- MessageEncryption state: the key manager plus the lru_cache(maxsize=1000)
sitting on _get_encryption_suite, mapping a room id to the key its cached
AESGCM suite was constructed with.  (Eviction starts only beyond 1000
distinct rooms and is not modelled.) -/
structure MessageEncryption where
  key_manager : KeyManagement
  suite_cache : List (List Nat × List Nat)
  deriving DecidableEq

/-- MessageEncryption._get_encryption_suite: returns the cached suite for
the room if one exists — without consulting get_room_key — and otherwise
constructs one from get_room_key and caches it. -/
def get_encryption_suite (lib : CipherLib) (me : MessageEncryption)
    (room_id : List Nat) (now : Nat) : List Nat × MessageEncryption :=
  match dGet me.suite_cache room_id with
  | some key => (key, me)
  | none =>
      let kkm := get_room_key lib me.key_manager room_id now
      (kkm.1,
        { key_manager := kkm.2, suite_cache := dSet me.suite_cache room_id kkm.1 })

/-- MessageEncryption.encrypt_message: random 12-byte nonce (passed here as
an argument, modelling os.urandom(12)), AESGCM encryption with the room id
bound as associated data, base64 encoding of ciphertext and nonce. -/
def encrypt_message (lib : CipherLib) (me : MessageEncryption)
    (content : List Nat) (room_id : List Nat) (nonce : List Nat) (now : Nat) :
    (List Nat × List Nat) × MessageEncryption :=
  let skey := get_encryption_suite lib me room_id now
  let encrypted_data := lib.aead.enc skey.1 nonce (utf8Encode content) (utf8Encode room_id)
  ((b64encode encrypted_data, b64encode nonce), skey.2)

/-- MessageEncryption.decrypt_message: base64 decoding, AESGCM decryption
with the room id as associated data, utf-8 decoding; none models the
re-raised decryption error. -/
def decrypt_message (lib : CipherLib) (me : MessageEncryption)
    (encrypted_content : List Nat) (nonce : List Nat) (room_id : List Nat)
    (now : Nat) : Option (List Nat) × MessageEncryption :=
  let skey := get_encryption_suite lib me room_id now
  match b64decode encrypted_content, b64decode nonce with
  | some encrypted_data, some nonce_bytes =>
      match lib.aead.dec skey.1 nonce_bytes encrypted_data (utf8Encode room_id) with
      | some decrypted_data => (utf8Decode decrypted_data, skey.2)
      | none => (none, skey.2)
  | _, _ => (none, skey.2)

/-! ### Content compressor (ChatApp/compression.py) -/

/-- The zstandard library: ZstdCompressor.compress and
ZstdDecompressor.decompress; none models a ZstdError raise. -/
structure Zstd where
  comp : List Nat → List Nat
  decomp : List Nat → Option (List Nat)

/-- The guarantees the zstandard library documents: decompression inverts
compression, compressed frames are byte strings, and a compressed frame is
never empty (it always carries the frame header). -/
def ZstdCorrect (z : Zstd) : Prop :=
  (∀ x, z.decomp (z.comp x) = some x) ∧
  (∀ x, (∀ b ∈ x, b < 256) → ∀ b ∈ z.comp x, b < 256) ∧
  (∀ x, z.comp x ≠ [])

/-- MessageCompression.compress_message: skips empty or sub-100-character
content, otherwise compresses and base64-encodes, keeping the result only
when strictly shorter than the original. -/
def compress_message (z : Zstd) (content : List Nat) : List Nat × Bool :=
  if content = [] ∨ content.length < 100 then (content, false)
  else
    let compressed_b64 := b64encode (z.comp (utf8Encode content))
    if compressed_b64.length < content.length then (compressed_b64, true)
    else (content, false)

/-- The "[Decompression failed]" sentinel string, as code points. -/
def decompressionFailed : List Nat :=
  "[Decompression failed]".data.map (fun ch => ch.toNat)

/-- MessageCompression.decompress_message: identity when not flagged or
empty; otherwise base64-decode, decompress and utf-8 decode, degrading to
the sentinel string on any failure. -/
def decompress_message (z : Zstd) (content : List Nat) (is_compressed : Bool) :
    List Nat :=
  if is_compressed = false ∨ content = [] then content
  else
    match b64decode content with
    | none => decompressionFailed
    | some compressed_data =>
        match z.decomp compressed_data with
        | none => decompressionFailed
        | some decompressed =>
            match utf8Decode decompressed with
            | none => decompressionFailed
            | some s => s

/-! ### Helper lemmas for the cipher and compressor -/

/-- base64 encoding of a nonempty byte list is nonempty. -/
theorem b64encode_ne_nil (l : List Nat) (h : l ≠ []) : b64encode l ≠ [] := by
  match l with
  | [] => exact absurd rfl h
  | [a] => simp [b64encode]
  | [a, b] => simp [b64encode]
  | a :: b :: cc :: rest => simp [b64encode]

/-- Re-querying the encryption-suite cache right after a query returns the
same key and leaves the state unchanged, at any later time. -/
theorem get_encryption_suite_stable (lib : CipherLib) (me : MessageEncryption)
    (room_id : List Nat) (t1 t2 : Nat) :
    get_encryption_suite lib (get_encryption_suite lib me room_id t1).2 room_id t2 =
      ((get_encryption_suite lib me room_id t1).1,
        (get_encryption_suite lib me room_id t1).2) := by
  unfold get_encryption_suite
  match hc : dGet me.suite_cache room_id with
  | some key => simp [hc]
  | none => simp [hc, dGet_dSet_self]

/-- C3: for every message string m (including the empty string and strings
longer than 10KB) and every room id, decrypting the (ciphertext, nonce) pair
produced by encrypt_message with decrypt_message under the same room id
returns exactly m.  The AEAD guarantee of the cryptography library is an
explicit hypothesis; the nonce is the os.urandom(12) output. -/
theorem encrypt_decrypt_roundtrip (lib : CipherLib) (me : MessageEncryption)
    (m room_id nonce : List Nat) (t1 t2 : Nat)
    (hA : AEADCorrect lib.aead)
    (hm : ∀ cp ∈ m, ValidCp cp)
    (hn : ∀ b ∈ nonce, b < 256) :
    (decrypt_message lib (encrypt_message lib me m room_id nonce t1).2
        (encrypt_message lib me m room_id nonce t1).1.1
        (encrypt_message lib me m room_id nonce t1).1.2 room_id t2).1 = some m := by
  obtain ⟨hdec, hbytes⟩ := hA
  unfold encrypt_message decrypt_message
  have hst := get_encryption_suite_stable lib me room_id t1 t2
  simp only [hst]
  have hct : ∀ b ∈ lib.aead.enc (get_encryption_suite lib me room_id t1).1 nonce
      (utf8Encode m) (utf8Encode room_id), b < 256 :=
    hbytes _ _ _ _ (utf8Encode_lt m hm)
  rw [b64_roundtrip _ hct, b64_roundtrip nonce hn]
  simp only [hdec]
  rw [utf8_roundtrip m hm]

/-- C4: decompress_message inverts compress_message (with the returned flag
passed along) for every string, and strings of fewer than 100 characters are
returned unchanged with the compressed flag unset.  The zstandard round-trip
guarantee is an explicit hypothesis. -/
theorem compress_decompress_roundtrip (z : Zstd)
    (hz : ZstdCorrect z) :
    (∀ content : List Nat, (∀ cp ∈ content, ValidCp cp) →
      decompress_message z (compress_message z content).1
        (compress_message z content).2 = content) ∧
    (∀ content : List Nat, content.length < 100 →
      compress_message z content = (content, false)) := by
  obtain ⟨hrt, hbytes, hne⟩ := hz
  constructor
  · intro content hv
    unfold compress_message
    by_cases hsmall : content = [] ∨ content.length < 100
    · rw [if_pos hsmall]
      unfold decompress_message
      simp
    · rw [if_neg hsmall]
      set cb := b64encode (z.comp (utf8Encode content)) with hcb
      by_cases hshort : cb.length < content.length
      · rw [if_pos hshort]
        unfold decompress_message
        have hnn : cb ≠ [] := b64encode_ne_nil _ (hne _)
        rw [if_neg (by simp [hnn])]
        rw [hcb, b64_roundtrip _ (hbytes _ (utf8Encode_lt content hv))]
        simp only [hrt, utf8_roundtrip content hv]
      · rw [if_neg hshort]
        unfold decompress_message
        simp
  · intro content hlen
    unfold compress_message
    rw [if_pos (Or.inr hlen)]

/-! ### Concrete library instances used by witnesses and counterexamples -/

/-- A trivially correct AEAD instance (identity on payloads), used only to
instantiate library-correctness hypotheses in witnesses. -/
def idAead : AEAD :=
  { enc := fun _ _ p _ => p, dec := fun _ _ ct _ => some ct }

/-- A concrete cipher library: the identity AEAD and concatenation as the
(deterministic) key-derivation function. -/
def lib0 : CipherLib :=
  { aead := idAead, kdf := fun master salt => master ++ salt }

/-- A trivially correct compressor instance (prepends a one-byte header),
used only to instantiate library-correctness hypotheses in witnesses. -/
def z0 : Zstd :=
  { comp := fun x => 1 :: x,
    decomp := fun l =>
      match l with
      | [] => none
      | b :: x => if b = 1 then some x else none }

/-! ### C1: room-key rotation -/

/-- Key-manager state holding a room key for room "r" derived at time 0. -/
def kmC1 : KeyManagement :=
  { master_key := [1], room_keys := [([114], ([1, 114], 0))] }

/-- Cipher state whose encryption-suite cache already holds the suite for
room "r", constructed from the key derived at time 0. -/
def meC1 : MessageEncryption :=
  { key_manager := kmC1, suite_cache := [([114], [1, 114])] }

/-- C1 counterexample: more than 7 days after the cached key's creation,
(a) get_room_key returns a key byte-for-byte equal to the expired cached key
(the old key value is reused, only restamped), and (b) an encrypt call does
not consult get_room_key at all: it leaves the whole cipher state — in
particular the key cache entry with its 7-day-old timestamp — unchanged,
using the key object retained in the suite cache from before rotation. -/
theorem room_key_rotation_counterexample :
    key_rotation_interval ≤ 700000 - 0 ∧
    dGet kmC1.room_keys [114] = some ([1, 114], 0) ∧
    (get_room_key lib0 kmC1 [114] 700000).1 = [1, 114] ∧
    (encrypt_message lib0 meC1 [104] [114] [0] 700000).2 = meC1 ∧
    dGet (encrypt_message lib0 meC1 [104] [114] [0] 700000).2.key_manager.room_keys
      [114] = some ([1, 114], 0) := by
  refine ⟨by decide, by decide, by decide, by decide, by decide⟩

/-- C1 amended: (1) a get_room_key call at or beyond the rotation interval
re-derives, restamps and replaces the cache entry; (2) because derivation
depends only on the master key and room id, the replacement key is equal to
the expired one — the key value is reused; (3) encrypt_message with a
populated suite cache uses the retained suite key and leaves the cipher
state (including the key cache) unchanged, never invoking get_room_key. -/
theorem room_key_rotation_amended :
    (∀ (lib : CipherLib) (km : KeyManagement) (room_id k : List Nat) (t0 t : Nat),
      dGet km.room_keys room_id = some (k, t0) →
      key_rotation_interval ≤ t - t0 →
      get_room_key lib km room_id t =
        (derive_room_key lib km room_id,
          { km with
              room_keys :=
                dSet km.room_keys room_id (derive_room_key lib km room_id, t) })) ∧
    (∀ (lib : CipherLib) (km : KeyManagement) (room_id : List Nat) (t0 t : Nat),
      dGet km.room_keys room_id = some (derive_room_key lib km room_id, t0) →
      key_rotation_interval ≤ t - t0 →
      (get_room_key lib km room_id t).1 = derive_room_key lib km room_id) ∧
    (∀ (lib : CipherLib) (me : MessageEncryption)
        (room_id k content nonce : List Nat) (t : Nat),
      dGet me.suite_cache room_id = some k →
      encrypt_message lib me content room_id nonce t =
        ((b64encode (lib.aead.enc k nonce (utf8Encode content) (utf8Encode room_id)),
          b64encode nonce), me)) := by
  refine ⟨?_, ?_, ?_⟩
  · intro lib km room_id k t0 t hson hexp
    unfold get_room_key
    rw [hson]
    simp only [if_neg (by omega : ¬ (t - t0 < key_rotation_interval))]
  · intro lib km room_id t0 t hson hexp
    unfold get_room_key
    rw [hson]
    simp only [if_neg (by omega : ¬ (t - t0 < key_rotation_interval))]
  · intro lib me room_id k content nonce t hs
    unfold encrypt_message get_encryption_suite
    rw [hs]

/-- Witness for the amended C1 theorem: its three parts applied at a
concrete expired cache entry. -/
theorem room_key_rotation_amended_witness :
    (dGet kmC1.room_keys [114] = some ([1, 114], 0) ∧
      key_rotation_interval ≤ 700000 - 0) ∧
    get_room_key lib0 kmC1 [114] 700000 =
      (derive_room_key lib0 kmC1 [114],
        { kmC1 with
            room_keys :=
              dSet kmC1.room_keys [114] (derive_room_key lib0 kmC1 [114], 700000) }) ∧
    (get_room_key lib0 kmC1 [114] 700000).1 = derive_room_key lib0 kmC1 [114] ∧
    encrypt_message lib0 meC1 [104] [114] [0] 700000 =
      ((b64encode (lib0.aead.enc [1, 114] [0] (utf8Encode [104]) (utf8Encode [114])),
        b64encode [0]), meC1) :=
  ⟨⟨by decide, by decide⟩,
    room_key_rotation_amended.1 lib0 kmC1 [114] [1, 114] 0 700000 (by decide)
      (by decide),
    room_key_rotation_amended.2.1 lib0 kmC1 [114] 0 700000 (by decide) (by decide),
    room_key_rotation_amended.2.2 lib0 meC1 [114] [1, 114] [104] [0] 700000
      (by decide)⟩

/-! ### C3 and C4 witnesses -/

/-- A cipher state with empty caches. -/
def meEmpty : MessageEncryption :=
  { key_manager := { master_key := [1], room_keys := [] }, suite_cache := [] }

/-- Witness for the C3 round-trip theorem: applied to the message "hi" in
room "r" with a zero nonce under the concrete correct AEAD. -/
theorem encrypt_decrypt_roundtrip_witness :
    (AEADCorrect lib0.aead ∧ (∀ cp ∈ [104, 105], ValidCp cp) ∧
      (∀ b ∈ List.replicate 12 0, b < 256)) ∧
    (decrypt_message lib0
        (encrypt_message lib0 meEmpty [104, 105] [114] (List.replicate 12 0) 3).2
        (encrypt_message lib0 meEmpty [104, 105] [114] (List.replicate 12 0) 3).1.1
        (encrypt_message lib0 meEmpty [104, 105] [114] (List.replicate 12 0) 3).1.2
        [114] 5).1 = some [104, 105] :=
  ⟨⟨⟨fun _ _ _ _ => rfl, fun _ _ _ _ h => h⟩, by decide, by decide⟩,
    encrypt_decrypt_roundtrip lib0 meEmpty [104, 105] [114] (List.replicate 12 0)
      3 5 ⟨fun _ _ _ _ => rfl, fun _ _ _ _ h => h⟩ (by decide) (by decide)⟩

/-- Witness for the C4 compression theorem: the round trip on a concrete
300-character string and the no-compression identity on the 2-character
string "hi". -/
theorem compress_decompress_roundtrip_witness :
    (ZstdCorrect z0 ∧ (∀ cp ∈ List.replicate 300 97, ValidCp cp) ∧
      ([104, 105] : List Nat).length < 100) ∧
    decompress_message z0 (compress_message z0 (List.replicate 300 97)).1
      (compress_message z0 (List.replicate 300 97)).2 = List.replicate 300 97 ∧
    compress_message z0 [104, 105] = ([104, 105], false) := by
  have hz : ZstdCorrect z0 := by
    refine ⟨fun x => rfl, fun x hx b hb => ?_, fun x => by simp [z0]⟩
    · simp only [z0] at hb
      cases hb with
      | head => omega
      | tail _ h => exact hx b h
  refine ⟨⟨hz, by decide, by decide⟩, ?_, ?_⟩
  · exact (compress_decompress_roundtrip z0 hz).1 (List.replicate 300 97) (by decide)
  · exact (compress_decompress_roundtrip z0 hz).2 [104, 105] (by decide)

/-! ### Presence-aware connection registry (ChatApp/ws_connection_manager.py)

Sockets, user ids and room ids are modelled as naturals.  Room id 0 stands
for the special "unassigned" room (real rooms are the nonzero ids; no
ObjectId string equals "unassigned").  datetime.utcnow() and time.time()
are a single clock, passed to each operation in seconds.  Each operation
returns the new manager state together with the list of presence broadcasts
it fired (room id and the presence payload delivered to that room). -/

/-- The special room under which connections without a room are kept. -/
def UNASSIGNED : Nat := 0

/-- UserConnection (ws_connection_manager.py): a user's state in one room. -/
structure UserConnection where
  user_id : Nat
  status : String
  last_active : Nat
  connections : List Nat
  deriving DecidableEq

/-- The presence payload broadcast_presence delivers: for each user in the
room, the status string and last-active timestamp. -/
abbrev PresenceData := List (Nat × (String × Nat))

/-- ConnectionManager state: rooms (room id to user id to UserConnection),
the user_room_map, and the presence cache (payload and the time it was
built) with its 2-second TTL. -/
structure ConnectionManager where
  rooms : List (Nat × List (Nat × UserConnection))
  user_room_map : List (Nat × Nat)
  presence_cache : List (Nat × (PresenceData × Nat))
  deriving DecidableEq

/-- ConnectionManager.presence_cache_ttl, in seconds. -/
def presence_cache_ttl : Nat := 2

/-- A manager with no rooms, no map and an empty cache. -/
def emptyManager : ConnectionManager :=
  { rooms := [], user_room_map := [], presence_cache := [] }

/-- ConnectionManager._invalidate_presence_cache. -/
def invalidate_presence_cache (cm : ConnectionManager) (room_id : Nat) :
    ConnectionManager :=
  { cm with presence_cache := dDel cm.presence_cache room_id }

/-- ConnectionManager.broadcast_presence: no-op when the room is unknown;
serves the cached payload while it is within the TTL, otherwise rebuilds it
from the current room state and caches it.  Returns the payload delivered
(none when the room is unknown). -/
def broadcast_presence (cm : ConnectionManager) (room_id : Nat) (now : Nat) :
    ConnectionManager × Option PresenceData :=
  if dMem cm.rooms room_id = false then (cm, none)
  else
    match dGet cm.presence_cache room_id with
    | some entry =>
        if now - entry.2 < presence_cache_ttl then (cm, some entry.1)
        else
          let presence_data := (dGetD cm.rooms room_id []).map
            (fun p => (p.1, (p.2.status, p.2.last_active)))
          ({ cm with
              presence_cache := dSet cm.presence_cache room_id (presence_data, now) },
            some presence_data)
    | none =>
        let presence_data := (dGetD cm.rooms room_id []).map
          (fun p => (p.1, (p.2.status, p.2.last_active)))
        ({ cm with
            presence_cache := dSet cm.presence_cache room_id (presence_data, now) },
          some presence_data)

/-- ConnectionManager.connect: registers the websocket under the room (or
"unassigned"), adding to an existing connection set or creating the state;
when a real room was given, records the user's room and broadcasts
presence. -/
def connect (cm : ConnectionManager) (websocket user_id : Nat)
    (room_id : Option Nat) (now : Nat) :
    ConnectionManager × List (Nat × PresenceData) :=
  let target_room := room_id.getD UNASSIGNED
  let rooms1 := dViv cm.rooms target_room []
  let users := dGetD rooms1 target_room []
  let users2 :=
    match dGet users user_id with
    | some user_conn =>
        dSet users user_id
          { user_id := user_id, status := "active", last_active := now,
            connections := setInsert websocket user_conn.connections }
    | none =>
        dSet users user_id
          { user_id := user_id, status := "active", last_active := now,
            connections := [websocket] }
  let cm1 := { cm with rooms := dSet rooms1 target_room users2 }
  match room_id with
  | some rid =>
      let cm2 := { cm1 with user_room_map := dSet cm1.user_room_map user_id rid }
      let cm3 := invalidate_presence_cache cm2 rid
      let res := broadcast_presence cm3 rid now
      (res.1, match res.2 with | some d => [(rid, d)] | none => [])
  | none => (cm1, [])

/-- ConnectionManager.switch_room: removes the websocket from the room the
user_room_map records for the user (deleting emptied user states and empty
rooms, and broadcasting presence for real rooms), then unconditionally adds
it to the new room, updates the map, and broadcasts presence there.  No-op
when the mapped room already equals the target. -/
def switch_room (cm : ConnectionManager) (websocket user_id new_room_id : Nat)
    (now : Nat) : ConnectionManager × List (Nat × PresenceData) :=
  let old_room_id := dGetD cm.user_room_map user_id UNASSIGNED
  if old_room_id = new_room_id then (cm, [])
  else
    let rooms1 := dViv cm.rooms old_room_id []
    let step1 : ConnectionManager × List (Nat × PresenceData) :=
      match dGet (dGetD rooms1 old_room_id []) user_id with
      | some user_conn =>
          if websocket ∈ user_conn.connections then
            let remaining := setRemove websocket user_conn.connections
            let rooms2 :=
              if remaining ≠ [] then
                dSet rooms1 old_room_id
                  (dSet (dGetD rooms1 old_room_id []) user_id
                    { user_conn with connections := remaining })
              else
                let users_del := dDel (dGetD rooms1 old_room_id []) user_id
                if users_del = [] ∧ old_room_id ≠ UNASSIGNED then
                  dDel rooms1 old_room_id
                else dSet rooms1 old_room_id users_del
            let cmB := { cm with rooms := rooms2 }
            if old_room_id ≠ UNASSIGNED then
              let cmC := invalidate_presence_cache cmB old_room_id
              let res := broadcast_presence cmC old_room_id now
              (res.1, match res.2 with | some d => [(old_room_id, d)] | none => [])
            else (cmB, [])
          else ({ cm with rooms := rooms1 }, [])
      | none => ({ cm with rooms := rooms1 }, [])
    let cm2 := step1.1
    let rooms3 := dViv cm2.rooms new_room_id []
    let usersN := dGetD rooms3 new_room_id []
    let usersN2 :=
      match dGet usersN user_id with
      | some user_conn =>
          dSet usersN user_id
            { user_id := user_id, status := "active", last_active := now,
              connections := setInsert websocket user_conn.connections }
      | none =>
          dSet usersN user_id
            { user_id := user_id, status := "active", last_active := now,
              connections := [websocket] }
    let cm3 := { cm2 with
                 rooms := dSet rooms3 new_room_id usersN2,
                 user_room_map := dSet cm2.user_room_map user_id new_room_id }
    let cm4 := invalidate_presence_cache cm3 new_room_id
    let res2 := broadcast_presence cm4 new_room_id now
    (res2.1, step1.2 ++ (match res2.2 with | some d => [(new_room_id, d)] | none => []))

/-- ConnectionManager.disconnect: removes the websocket from the given room
(or the room the map records); when the user's connection set empties, the
user state is deleted (and the map entry, and an emptied real room), and
only then is presence broadcast for real rooms. -/
def disconnect (cm : ConnectionManager) (websocket user_id : Nat)
    (room_id : Option Nat) (now : Nat) :
    ConnectionManager × List (Nat × PresenceData) :=
  let actual_room_id := room_id.getD (dGetD cm.user_room_map user_id UNASSIGNED)
  let rooms1 := dViv cm.rooms actual_room_id []
  match dGet (dGetD rooms1 actual_room_id []) user_id with
  | some user_conn =>
      if websocket ∈ user_conn.connections then
        let remaining := setRemove websocket user_conn.connections
        let cmB :=
          if remaining ≠ [] then
            { cm with
              rooms := dSet rooms1 actual_room_id
                (dSet (dGetD rooms1 actual_room_id []) user_id
                  { user_conn with connections := remaining }) }
          else
            let users_del := dDel (dGetD rooms1 actual_room_id []) user_id
            let map2 :=
              if dGet cm.user_room_map user_id = some actual_room_id then
                dDel cm.user_room_map user_id
              else cm.user_room_map
            let rooms2 :=
              if users_del = [] ∧ actual_room_id ≠ UNASSIGNED then
                dDel rooms1 actual_room_id
              else dSet rooms1 actual_room_id users_del
            { cm with rooms := rooms2, user_room_map := map2 }
        if actual_room_id ≠ UNASSIGNED then
          let cmC := invalidate_presence_cache cmB actual_room_id
          let res := broadcast_presence cmC actual_room_id now
          (res.1, match res.2 with | some d => [(actual_room_id, d)] | none => [])
        else (cmB, [])
      else ({ cm with rooms := rooms1 }, [])
  | none => ({ cm with rooms := rooms1 }, [])

/-- ConnectionManager.broadcast: the list of sends attempted — one per
connection of every user in the room other than the excluded one, each
carrying the payload serialized once.  Empty for an unknown room.  Send
failures are collected by asyncio.gather(return_exceptions=True), so which
sends are attempted does not depend on which fail; broadcast_results below
makes that explicit. -/
def broadcast {α : Type} (cm : ConnectionManager) (message : α)
    (serialize : α → List Nat) (room_id : Nat) (exclude_user_id : Option Nat) :
    List (Nat × List Nat) :=
  if dMem cm.rooms room_id = false then []
  else
    let message_json := serialize message
    (dGetD cm.rooms room_id []).flatMap (fun p =>
      if exclude_user_id ≠ some p.1 ∧ p.2.connections ≠ [] then
        p.2.connections.map (fun conn => (conn, message_json))
      else [])

/-- The outcomes gathered by broadcast under a given per-socket failure
behaviour: every attempted send is resolved, successes and failures alike. -/
def broadcast_results {α : Type} (cm : ConnectionManager) (message : α)
    (serialize : α → List Nat) (room_id : Nat) (exclude_user_id : Option Nat)
    (send_ok : Nat → Bool) : List (Nat × Bool) :=
  (broadcast cm message serialize room_id exclude_user_id).map
    (fun p => (p.1, send_ok p.1))

/-- ConnectionManager.update_presence: no-op when the user has no state in
the room; otherwise replaces status and last-active (keeping the connection
set), invalidates the cache and broadcasts presence. -/
def update_presence (cm : ConnectionManager) (user_id room_id : Nat)
    (status : String) (last_active : Option Nat) (now : Nat) :
    ConnectionManager × List (Nat × PresenceData) :=
  match dGet cm.rooms room_id with
  | none => (cm, [])
  | some users =>
      match dGet users user_id with
      | none => (cm, [])
      | some user_conn =>
          let timestamp := last_active.getD now
          let cm1 := { cm with
              rooms := dSet cm.rooms room_id
                (dSet users user_id
                  { user_id := user_id, status := status, last_active := timestamp,
                    connections := user_conn.connections }) }
          let cm2 := invalidate_presence_cache cm1 room_id
          let res := broadcast_presence cm2 room_id now
          (res.1, match res.2 with | some d => [(room_id, d)] | none => [])

/-- ConnectionManager.get_active_users. -/
def get_active_users (cm : ConnectionManager) (room_id : Nat) : List Nat :=
  match dGet cm.rooms room_id with
  | none => []
  | some users => (users.filter (fun p => p.2.status = "active")).map (fun p => p.1)

/-! ### The legacy registry embedded in ChatApp/main.py

main.py carries an older ConnectionManager whose state splits connection
sets, presence dicts and reference counts; its handle_disconnect method is
the second source of the disconnect-semantics claim.  Only the pieces that
claim needs are modelled: handle_disconnect and broadcast_presence (whose
delivered payload is the user_presence snapshot of the room). -/

/-- The main.py ConnectionManager state. -/
structure MainConnectionManager where
  active_connections : List (Nat × List (Nat × List Nat))
  user_presence : List (Nat × List (Nat × (String × Nat)))
  connection_count : List (Nat × List (Nat × Int))
  user_rooms : List (Nat × Nat)
  presence_cache : List (Nat × (PresenceData × Nat))
  deriving DecidableEq

/-- main.py ConnectionManager.broadcast_presence: serves the cached payload
within the TTL, else rebuilds from user_presence and caches it.  Unlike the
refactored manager it does not check that the room exists. -/
def main_broadcast_presence (cm : MainConnectionManager) (room_id now : Nat) :
    MainConnectionManager × PresenceData :=
  match dGet cm.presence_cache room_id with
  | some entry =>
      if now - entry.2 < presence_cache_ttl then (cm, entry.1)
      else
        let msg := dGetD cm.user_presence room_id []
        ({ cm with
            presence_cache := dSet cm.presence_cache room_id (msg, now) }, msg)
  | none =>
      let msg := dGetD cm.user_presence room_id []
      ({ cm with
          presence_cache := dSet cm.presence_cache room_id (msg, now) }, msg)

/-- main.py ConnectionManager.handle_disconnect: removes the websocket and
decrements the count; on the last connection it pops the user, marks the
user's presence offline, invalidates the cache and broadcasts (the payload
still carrying the user as offline), then removes the presence entry, then
cleans up an empty room or broadcasts again; finally drops the user_rooms
entry.  Returns the presence payloads broadcast, in order. -/
def main_handle_disconnect (cm : MainConnectionManager) (websocket user_id : Nat)
    (room_id : Option Nat) (now : Nat) :
    MainConnectionManager × List PresenceData :=
  let actual := room_id.getD (dGetD cm.user_rooms user_id UNASSIGNED)
  let ac1 := dViv cm.active_connections actual []
  let users := dGetD ac1 actual []
  let conns := dGetD users user_id []
  let usersV := dSet users user_id conns
  if websocket ∈ conns then
    let conns2 := setRemove websocket conns
    let cnt := dGetD (dGetD cm.connection_count actual []) user_id 0 - 1
    let ac3 := dSet ac1 actual (dSet usersV user_id conns2)
    let cc2 := dSet (dViv cm.connection_count actual []) actual
      (dSet (dGetD cm.connection_count actual []) user_id cnt)
    let stepA : MainConnectionManager × List PresenceData :=
      if cnt ≤ 0 then
        let ac4 := dSet ac3 actual (dDel (dSet usersV user_id conns2) user_id)
        let cc3 := dSet cc2 actual (dDel (dGetD cc2 actual []) user_id)
        let up1 := dViv cm.user_presence actual []
        let pres := dGetD up1 actual []
        let stepP : MainConnectionManager × List PresenceData :=
          match dGet pres user_id with
          | some st_la =>
              let up2 := dSet up1 actual (dSet pres user_id ("offline", st_la.2))
              let cm1 := { cm with
                active_connections := ac4, connection_count := cc3,
                user_presence := up2,
                presence_cache := dDel cm.presence_cache actual }
              let r1 := main_broadcast_presence cm1 actual now
              ({ r1.1 with
                  user_presence := dSet r1.1.user_presence actual
                    (dDel (dGetD r1.1.user_presence actual []) user_id) }, [r1.2])
          | none =>
              ({ cm with
                  active_connections := ac4, connection_count := cc3,
                  user_presence := up1 }, [])
        let cmP := stepP.1
        if dGetD cmP.active_connections actual [] = [] then
          ({ cmP with
              active_connections := dDel cmP.active_connections actual,
              connection_count := dDel cmP.connection_count actual,
              user_presence := dDel cmP.user_presence actual,
              presence_cache := dDel cmP.presence_cache actual }, stepP.2)
        else
          let r2 := main_broadcast_presence cmP actual now
          (r2.1, stepP.2 ++ [r2.2])
      else
        ({ cm with active_connections := ac3, connection_count := cc2 }, [])
    ({ stepA.1 with user_rooms := dDel stepA.1.user_rooms user_id }, stepA.2)
  else ({ cm with active_connections := dSet ac1 actual usersV }, [])

/-! ### The socket-exit disconnect path (ws_routes.py handle_disconnect)

On WebSocketDisconnect the endpoint calls this module-level helper, which
only flips presence to offline through the registry and fires a direct
offline notice; it never touches the connection sets. -/

/-- ws_routes.py handle_disconnect: update_presence to "offline" (with the
current time) followed by a fire-and-forget broadcast of a plain offline
notice (user id, status, room id).  Returns the new registry state, the
presence broadcasts fired, and the direct notice. -/
def handle_disconnect (cm : ConnectionManager) (user_id room_id now : Nat) :
    (ConnectionManager × List (Nat × PresenceData)) × (Nat × String × Nat) :=
  (update_presence cm user_id room_id "offline" none now,
    (user_id, "offline", room_id))

/-! ### Operation sequences over the registry (for the counting invariant)

A world is the registry plus the set of currently open sockets: a socket
becomes open when the endpoint accepts it (just before connect) and stops
being open at the disconnect that closes it. -/

/-- One registry operation, as issued by the websocket endpoints. -/
inductive COp where
  | conn (w u : Nat) (r : Option Nat)
  | switch (w u r : Nat)
  | disc (w u : Nat) (r : Option Nat)
  deriving DecidableEq

/-- The registry together with the currently open sockets. -/
structure World where
  cm : ConnectionManager
  opens : List Nat
  deriving DecidableEq

/-- Apply one operation (timestamps are irrelevant to the counting claim and
fixed at 0). -/
def applyOp (world : World) : COp → World
  | .conn w u r =>
      { cm := (connect world.cm w u r 0).1, opens := setInsert w world.opens }
  | .switch w u r => { world with cm := (switch_room world.cm w u r 0).1 }
  | .disc w u r =>
      { cm := (disconnect world.cm w u r 0).1, opens := setRemove w world.opens }

/-- Run a sequence of operations. -/
def runOps (world : World) : List COp → World
  | [] => world
  | op :: ops => runOps (applyOp world op) ops

/-- The world before any connection. -/
def initialWorld : World := { cm := emptyManager, opens := [] }

/-- Whether socket w is registered under user u in room r. -/
def registeredB (cm : ConnectionManager) (r u w : Nat) : Bool :=
  match dGet cm.rooms r with
  | none => false
  | some users =>
      match dGet users u with
      | none => false
      | some uc => decide (w ∈ uc.connections)

/-- The sum of connection-set sizes across the users of a room. -/
def roomConnSum (users : List (Nat × UserConnection)) : Nat :=
  (users.map (fun p => p.2.connections.length)).sum

/-- All sockets registered in a room, with multiplicity. -/
def roomSocks (users : List (Nat × UserConnection)) : List Nat :=
  users.flatMap (fun p => p.2.connections)

/-! ### Further dictionary lemmas -/

/-- Deletion removes the key. -/
theorem dGet_dDel_self {α β : Type} [DecidableEq α] (d : List (α × β)) (a : α) :
    dGet (dDel d a) a = none := by
  induction d with
  | nil => rfl
  | cons kv rest ih =>
      by_cases hk : kv.1 = a
      · simpa [dDel, List.filter_cons, hk] using ih
      · simpa [dDel, List.filter_cons, hk, dGet] using ih

/-- Deletion does not disturb other keys. -/
theorem dGet_dDel_ne {α β : Type} [DecidableEq α] (d : List (α × β)) (a b : α)
    (h : b ≠ a) : dGet (dDel d a) b = dGet d b := by
  have hab : a ≠ b := fun hx => h hx.symm
  induction d with
  | nil => rfl
  | cons kv rest ih =>
      obtain ⟨k, w⟩ := kv
      by_cases hk : k = a
      · subst hk
        simp [dDel, List.filter_cons, dGet, hab] at ih ⊢
        exact ih
      · by_cases hb : k = b
        · simp [dDel, List.filter_cons, hk, dGet, hb, h]
        · simp [dDel, List.filter_cons, hk, dGet, hb] at ih ⊢
          exact ih

/-- Writing back the value a key already holds is the identity. -/
theorem dSet_dGet_self {α β : Type} [DecidableEq α] (d : List (α × β)) (a : α)
    (v : β) (h : dGet d a = some v) : dSet d a v = d := by
  induction d with
  | nil => simp [dGet] at h
  | cons kv rest ih =>
      obtain ⟨k, w⟩ := kv
      by_cases hk : k = a
      · subst hk
        simp [dGet] at h
        simp [dSet, h]
      · simp [dGet, hk] at h
        simp [dSet, hk, ih h]

/-- Deleting a key erases any prior assignment to it. -/
theorem dDel_dSet {α β : Type} [DecidableEq α] (d : List (α × β)) (a : α) (v : β) :
    dDel (dSet d a v) a = dDel d a := by
  induction d with
  | nil => simp [dSet, dDel, List.filter_cons]
  | cons kv rest ih =>
      obtain ⟨k, w⟩ := kv
      by_cases hk : k = a
      · subst hk
        simp [dSet, dDel, List.filter_cons]
      · simp [dSet, hk, dDel, List.filter_cons, hk] at ih ⊢
        exact ih

/-- Mapping a function over the values of a dictionary. -/
def dMapVal {α β γ : Type} (f : β → γ) (d : List (α × β)) : List (α × γ) :=
  d.map (fun p => (p.1, f p.2))

/-- Value maps commute with assignment. -/
theorem dMapVal_dSet {α β γ : Type} [DecidableEq α] (f : β → γ)
    (d : List (α × β)) (a : α) (v : β) :
    dMapVal f (dSet d a v) = dSet (dMapVal f d) a (f v) := by
  induction d with
  | nil => simp [dSet, dMapVal]
  | cons kv rest ih =>
      obtain ⟨k, w⟩ := kv
      by_cases hk : k = a
      · simp [dSet, hk, dMapVal]
      · simp [dSet, hk, dMapVal] at ih ⊢
        exact ih

/-- Lookup through a value map. -/
theorem dGet_dMapVal {α β γ : Type} [DecidableEq α] (f : β → γ)
    (d : List (α × β)) (a : α) :
    dGet (dMapVal f d) a = (dGet d a).map f := by
  induction d with
  | nil => rfl
  | cons kv rest ih =>
      obtain ⟨k, w⟩ := kv
      by_cases hk : k = a
      · simp [dMapVal, dGet, hk]
      · simp [dMapVal, dGet, hk] at ih ⊢
        exact ih

/-- dViv is the identity when the key is present. -/
theorem dViv_present {α β : Type} [DecidableEq α] (d : List (α × β)) (a : α)
    (dflt : β) (h : (dGet d a).isSome) : dViv d a dflt = d := by
  simp [dViv, dMem, h]

/-- broadcast_presence changes neither the rooms nor the user-room map. -/
theorem broadcast_presence_frame (cm : ConnectionManager) (room_id now : Nat) :
    (broadcast_presence cm room_id now).1.rooms = cm.rooms ∧
    (broadcast_presence cm room_id now).1.user_room_map = cm.user_room_map := by
  unfold broadcast_presence
  by_cases hm : dMem cm.rooms room_id = false
  · simp [hm]
  · simp only [hm, if_neg, Bool.not_eq_false]
    match hc : dGet cm.presence_cache room_id with
    | some entry =>
        simp [hc]
        split
        all_goals simp
    | none => simp [hc]

/-! ### C2: disconnect semantics -/

/-- A room with user 1 (one socket) and a still-connected peer, user 2. -/
def cmC2 : ConnectionManager :=
  { rooms := [(1, [(1, ⟨1, "active", 0, [10]⟩), (2, ⟨2, "active", 0, [20]⟩)])],
    user_room_map := [(1, 1), (2, 1)], presence_cache := [] }

/-- C2 counterexample: when the refactored ConnectionManager.disconnect
removes user 1's last connection while peer 2 stays connected, the single
presence broadcast it fires carries only the peer — user 1 appears in no
broadcast at all, with no offline status — and the user's state is deleted.
The still-connected peer observes absence, not an offline transition. -/
theorem disconnect_offline_counterexample :
    (disconnect cmC2 10 1 (some 1) 5).2 = [(1, [(2, ("active", 0))])] ∧
    ((disconnect cmC2 10 1 (some 1) 5).2.all (fun m => (dGet m.2 1).isNone)) = true ∧
    dGet (dGetD (disconnect cmC2 10 1 (some 1) 5).1.rooms 1 []) 1 = none := by
  refine ⟨by decide, by decide, by decide⟩

/-- C2 amended, refactored half: disconnecting the last connection deletes
the user state first; the presence broadcast then fired is rebuilt from the
remaining users, so it omits the disconnected user entirely (no offline
status is ever set or broadcast). -/
theorem disconnect_last_connection_refactored (cm : ConnectionManager)
    (w u r now : Nat) (users : List (Nat × UserConnection)) (uc : UserConnection)
    (hr : r ≠ UNASSIGNED)
    (husers : dGet cm.rooms r = some users)
    (huc : dGet users u = some uc)
    (hconn : uc.connections = [w])
    (hpeer : dDel users u ≠ []) :
    (disconnect cm w u (some r) now).2 =
      [(r, (dDel users u).map (fun p => (p.1, (p.2.status, p.2.last_active))))] ∧
    dGet (dGetD (disconnect cm w u (some r) now).1.rooms r []) u = none := by
  have hviv : dViv cm.rooms r [] = cm.rooms := dViv_present _ _ _ (by simp [husers])
  have hgd : dGetD cm.rooms r [] = users := by simp [dGetD, husers]
  have hrem : setRemove w uc.connections = [] := by simp [setRemove, hconn]
  unfold disconnect
  simp only [Option.getD_some, hviv, hgd, huc, hconn, hrem]
  simp only [List.mem_singleton, if_pos rfl, ne_eq, not_true_eq_false, if_false,
    hpeer, false_and, if_neg hr]
  have hrem2 : setRemove w [w] = [] := by simp [setRemove]
  simp only [hrem2, if_true, ne_eq, not_true_eq_false, if_false, hr,
    not_false_eq_true, ite_true, ite_false]
  unfold invalidate_presence_cache broadcast_presence
  simp only [dMem, dGet_dSet_self, dGet_dDel_self, Option.isSome_some, dGetD,
    Option.getD_some]
  simp only [Bool.true_eq_false, if_false, ite_false]
  refine ⟨trivial, ?_⟩
  simp [dGet_dSet_self, dGet_dDel_self]

/-- C2 amended, legacy half (main.py ConnectionManager.handle_disconnect):
removing the user's last connection pops the connection state, then sets the
user's presence status to offline and broadcasts a payload still carrying
the user as offline, and only afterwards removes the presence entry; with a
peer remaining, the (cached) offline payload is broadcast once more. -/
theorem disconnect_last_connection_legacy (cm : MainConnectionManager)
    (w u r now : Nat) (acUsers : List (Nat × List Nat))
    (pres : List (Nat × (String × Nat))) (st : String) (la : Nat)
    (hac : dGet cm.active_connections r = some acUsers)
    (hconn : dGet acUsers u = some [w])
    (hcnt : dGetD (dGetD cm.connection_count r []) u 0 = 1)
    (hpres : dGet cm.user_presence r = some pres)
    (hpu : dGet pres u = some (st, la))
    (hpeer : dDel acUsers u ≠ []) :
    (main_handle_disconnect cm w u (some r) now).2 =
      [dSet pres u ("offline", la), dSet pres u ("offline", la)] ∧
    dGet (dSet pres u ("offline", la)) u = some ("offline", la) ∧
    dGet (dGetD (main_handle_disconnect cm w u (some r) now).1.user_presence r [])
      u = none := by
  have hvac : dViv cm.active_connections r [] = cm.active_connections :=
    dViv_present _ _ _ (by simp [hac])
  have hvup : dViv cm.user_presence r [] = cm.user_presence :=
    dViv_present _ _ _ (by simp [hpres])
  have hgac : dGetD cm.active_connections r [] = acUsers := by simp [dGetD, hac]
  have hgup : dGetD cm.user_presence r [] = pres := by simp [dGetD, hpres]
  have husersV : dSet acUsers u [w] = acUsers := dSet_dGet_self _ _ _ hconn
  have hrem2 : setRemove w [w] = [] := by simp [setRemove]
  have hgconn : dGetD acUsers u [] = [w] := by simp [dGetD, hconn]
  unfold main_handle_disconnect
  simp only [Option.getD_some, hvac, hgac, hgconn, husersV, hvup, hgup, hcnt,
    hrem2, hpu]
  have hle : (((1 : Int) - 1) ≤ 0) = True := by norm_num
  simp only [List.mem_singleton, if_pos rfl, hle, if_true, ite_true, dDel_dSet]
  unfold main_broadcast_presence
  simp only [dGet_dDel_self, dGet_dSet_self, dGetD, Option.getD_some, hpeer,
    Nat.sub_self]
  have httl : (0 < presence_cache_ttl) = True := by simp [presence_cache_ttl]
  simp only [if_false, ite_false, httl, if_true, ite_true, dDel_dSet]
  refine ⟨by simp, by simp [dGet_dSet_self], ?_⟩
  simp [dGetD, dGet_dSet_self, dGet_dDel_self, dDel_dSet]

/-- C2 amended: in the refactored ConnectionManager, disconnecting a user's
last connection in a real room deletes the user state first and the presence
broadcast then fired is rebuilt without the user — peers observe absence,
never an offline status; the offline-transition-then-broadcast-then-purge
behaviour the claim describes holds only in the legacy main.py manager's
handle_disconnect, which marks the presence entry offline, broadcasts a
payload still carrying the user as offline, and only then purges the entry
(broadcasting the cached offline payload once more when a peer remains). -/
theorem disconnect_offline_amended :
    (∀ (cm : ConnectionManager) (w u r now : Nat)
        (users : List (Nat × UserConnection)) (uc : UserConnection),
      r ≠ UNASSIGNED → dGet cm.rooms r = some users → dGet users u = some uc →
      uc.connections = [w] → dDel users u ≠ [] →
      (disconnect cm w u (some r) now).2 =
        [(r, (dDel users u).map (fun p => (p.1, (p.2.status, p.2.last_active))))] ∧
      dGet (dGetD (disconnect cm w u (some r) now).1.rooms r []) u = none) ∧
    (∀ (cm : MainConnectionManager) (w u r now : Nat)
        (acUsers : List (Nat × List Nat)) (pres : List (Nat × (String × Nat)))
        (st : String) (la : Nat),
      dGet cm.active_connections r = some acUsers →
      dGet acUsers u = some [w] →
      dGetD (dGetD cm.connection_count r []) u 0 = 1 →
      dGet cm.user_presence r = some pres →
      dGet pres u = some (st, la) →
      dDel acUsers u ≠ [] →
      (main_handle_disconnect cm w u (some r) now).2 =
        [dSet pres u ("offline", la), dSet pres u ("offline", la)] ∧
      dGet (dSet pres u ("offline", la)) u = some ("offline", la) ∧
      dGet (dGetD (main_handle_disconnect cm w u (some r) now).1.user_presence r [])
        u = none) :=
  ⟨fun cm w u r now users uc hr husers huc hconn hpeer =>
    disconnect_last_connection_refactored cm w u r now users uc hr husers huc
      hconn hpeer,
   fun cm w u r now acUsers pres st la hac hconn hcnt hpres hpu hpeer =>
    disconnect_last_connection_legacy cm w u r now acUsers pres st la hac hconn
      hcnt hpres hpu hpeer⟩

/-- The legacy manager in the same two-user scenario as cmC2. -/
def mainC2 : MainConnectionManager :=
  { active_connections := [(1, [(1, [10]), (2, [20])])],
    user_presence := [(1, [(1, ("active", 0)), (2, ("active", 0))])],
    connection_count := [(1, [(1, 1), (2, 1)])],
    user_rooms := [(1, 1), (2, 1)], presence_cache := [] }

/-- Witness for the amended C2 theorem: both halves applied to the concrete
two-user room. -/
theorem disconnect_offline_amended_witness :
    ((1 : Nat) ≠ UNASSIGNED ∧
      dGet cmC2.rooms 1 =
        some [(1, ⟨1, "active", 0, [10]⟩), (2, ⟨2, "active", 0, [20]⟩)]) ∧
    ((disconnect cmC2 10 1 (some 1) 5).2 =
        [(1, (dDel [(1, (⟨1, "active", 0, [10]⟩ : UserConnection)),
            (2, ⟨2, "active", 0, [20]⟩)] 1).map
          (fun p => (p.1, (p.2.status, p.2.last_active))))] ∧
      dGet (dGetD (disconnect cmC2 10 1 (some 1) 5).1.rooms 1 []) 1 = none) ∧
    ((main_handle_disconnect mainC2 10 1 (some 1) 5).2 =
        [dSet [(1, ("active", 0)), (2, ("active", 0))] 1 ("offline", 0),
          dSet [(1, ("active", 0)), (2, ("active", 0))] 1 ("offline", 0)] ∧
      dGet (dSet [(1, ("active", 0)), (2, ("active", 0))] 1 ("offline", 0)) 1 =
        some ("offline", 0) ∧
      dGet (dGetD (main_handle_disconnect mainC2 10 1 (some 1) 5).1.user_presence
        1 []) 1 = none) :=
  ⟨⟨by decide, by decide⟩,
    disconnect_offline_amended.1 cmC2 10 1 1 5
      [(1, ⟨1, "active", 0, [10]⟩), (2, ⟨2, "active", 0, [20]⟩)]
      ⟨1, "active", 0, [10]⟩ (by decide) (by decide) (by decide) (by decide)
      (by decide),
    disconnect_offline_amended.2 mainC2 10 1 1 5 [(1, [10]), (2, [20])]
      [(1, ("active", 0)), (2, ("active", 0))] "active" 0 (by decide) (by decide)
      (by decide) (by decide) (by decide) (by decide)⟩

/-! ### C8: broadcast fan-out -/

/-- A key that lookup finds is a binding of the list. -/
theorem dGet_mem {α β : Type} [DecidableEq α] (d : List (α × β)) (a : α) (v : β)
    (h : dGet d a = some v) : (a, v) ∈ d := by
  induction d with
  | nil => simp [dGet] at h
  | cons kv rest ih =>
      obtain ⟨k, w⟩ := kv
      by_cases hk : k = a
      · subst hk
        simp [dGet] at h
        simp [h]
      · simp [dGet, hk] at h
        simp [ih h]

/-- C8: broadcast serializes the message once and attempts a send of that
identical payload to every connection of every user in the room except the
excluded user; it is a no-op for an unknown room; and the set of attempted
sends does not depend on which individual sends fail (gather with
return_exceptions collects failures instead of raising). -/
theorem broadcast_spec :
    (∀ (α : Type) (cm : ConnectionManager) (message : α)
        (serialize : α → List Nat) (room_id : Nat) (ex : Option Nat),
      dMem cm.rooms room_id = false →
      broadcast cm message serialize room_id ex = []) ∧
    (∀ (α : Type) (cm : ConnectionManager) (message : α)
        (serialize : α → List Nat) (room_id : Nat) (ex : Option Nat) p,
      p ∈ broadcast cm message serialize room_id ex → p.2 = serialize message) ∧
    (∀ (α : Type) (cm : ConnectionManager) (message : α)
        (serialize : α → List Nat) (room_id : Nat) (ex : Option Nat)
        (users : List (Nat × UserConnection)) (u : Nat) (uc : UserConnection)
        (w : Nat),
      dGet cm.rooms room_id = some users → dGet users u = some uc →
      ex ≠ some u → w ∈ uc.connections →
      (w, serialize message) ∈ broadcast cm message serialize room_id ex) ∧
    (∀ (α : Type) (cm : ConnectionManager) (message : α)
        (serialize : α → List Nat) (room_id : Nat) (ex : Option Nat)
        (f1 f2 : Nat → Bool),
      (broadcast_results cm message serialize room_id ex f1).map Prod.fst =
        (broadcast_results cm message serialize room_id ex f2).map Prod.fst) := by
  refine ⟨?_, ?_, ?_, ?_⟩
  · intro α cm message serialize room_id ex h
    unfold broadcast
    simp [h]
  · intro α cm message serialize room_id ex p hp
    unfold broadcast at hp
    split at hp
    · simp at hp
    · rw [List.mem_flatMap] at hp
      obtain ⟨q, _, hq⟩ := hp
      split at hq
      · rw [List.mem_map] at hq
        obtain ⟨conn, _, hconn⟩ := hq
        rw [← hconn]
      · simp at hq
  · intro α cm message serialize room_id ex users u uc w husers huc hex hw
    unfold broadcast
    have hm : dMem cm.rooms room_id = true := by simp [dMem, husers]
    simp only [hm, Bool.true_eq_false, if_false, ite_false, List.mem_flatMap]
    refine ⟨(u, uc), ?_, ?_⟩
    · have : dGetD cm.rooms room_id [] = users := by simp [dGetD, husers]
      rw [this]
      exact dGet_mem users u uc huc
    · have hne : uc.connections ≠ [] := by
        intro hx
        rw [hx] at hw
        simp at hw
      simp only [hex, hne, ne_eq, not_false_eq_true, and_self, if_true, ite_true]
      exact List.mem_map_of_mem _ hw
  · intro α cm message serialize room_id ex f1 f2
    unfold broadcast_results
    simp [List.map_map, Function.comp]

/-! ### C10: the socket-exit disconnect path is presence-only -/

/-- The connection sets of a registry: room id to user id to socket list. -/
def roomsConnections (cm : ConnectionManager) :
    List (Nat × List (Nat × List Nat)) :=
  dMapVal (fun users => dMapVal (fun uc => uc.connections) users) cm.rooms

/-- C10: ws_routes.py handle_disconnect only flips the user's presence to
offline with a refreshed last-active time, broadcasts, and emits the direct
offline notice; it leaves every connection set and the user-to-room map
exactly as they were (it never removes the websocket nor calls
ConnectionManager.disconnect), changes no other user or room entry, and is
a complete no-op on the registry when the user has no state in the room. -/
theorem handle_disconnect_presence_only :
    (∀ (cm : ConnectionManager) (u r now : Nat),
      roomsConnections (handle_disconnect cm u r now).1.1 = roomsConnections cm ∧
      (handle_disconnect cm u r now).1.1.user_room_map = cm.user_room_map ∧
      (handle_disconnect cm u r now).2 = (u, "offline", r)) ∧
    (∀ (cm : ConnectionManager) (u r now : Nat)
        (users : List (Nat × UserConnection)) (uc : UserConnection),
      dGet cm.rooms r = some users → dGet users u = some uc →
      dGet (dGetD (handle_disconnect cm u r now).1.1.rooms r []) u =
        some ⟨u, "offline", now, uc.connections⟩ ∧
      (∀ u2, u2 ≠ u →
        dGet (dGetD (handle_disconnect cm u r now).1.1.rooms r []) u2 =
          dGet users u2) ∧
      (∀ r2, r2 ≠ r →
        dGet (handle_disconnect cm u r now).1.1.rooms r2 = dGet cm.rooms r2)) ∧
    (∀ (cm : ConnectionManager) (u r now : Nat),
      (dGet cm.rooms r = none ∨
        (∃ users, dGet cm.rooms r = some users ∧ dGet users u = none)) →
      (handle_disconnect cm u r now).1.1 = cm) := by
  refine ⟨?_, ?_, ?_⟩
  · intro cm u r now
    unfold handle_disconnect update_presence
    match h1 : dGet cm.rooms r with
    | none => simp [h1]
    | some users =>
        match h2 : dGet users u with
        | none => simp [h1, h2]
        | some uc =>
            simp only [h1, h2]
            refine ⟨?_, ?_, trivial⟩
            · unfold roomsConnections
              rw [(broadcast_presence_frame _ r now).1]
              unfold invalidate_presence_cache
              simp only [dMapVal_dSet]
              have e1 : dGet (dMapVal (fun uc : UserConnection => uc.connections)
                  users) u = some uc.connections := by
                rw [dGet_dMapVal, h2]
                rfl
              rw [dSet_dGet_self _ _ _ e1]
              have e2 : dGet (dMapVal (fun users =>
                  dMapVal (fun uc : UserConnection => uc.connections) users)
                  cm.rooms) r =
                  some (dMapVal (fun uc : UserConnection => uc.connections)
                    users) := by
                rw [dGet_dMapVal, h1]
                rfl
              exact dSet_dGet_self _ _ _ e2
            · rw [(broadcast_presence_frame _ r now).2]
              rfl
  · intro cm u r now users uc h1 h2
    unfold handle_disconnect update_presence
    simp only [h1, h2]
    refine ⟨?_, ?_, ?_⟩
    · rw [(broadcast_presence_frame _ r now).1]
      unfold invalidate_presence_cache
      simp [dGetD, dGet_dSet_self]
    · intro u2 hu2
      rw [(broadcast_presence_frame _ r now).1]
      unfold invalidate_presence_cache
      simp only [dGetD, dGet_dSet_self, Option.getD_some]
      exact dGet_dSet_ne users u u2 _ (fun hx => hu2 hx.symm)
    · intro r2 hr2
      rw [(broadcast_presence_frame _ r now).1]
      unfold invalidate_presence_cache
      simp only []
      exact dGet_dSet_ne cm.rooms r r2 _ (fun hx => hr2 hx.symm)
  · intro cm u r now h
    unfold handle_disconnect update_presence
    rcases h with h1 | ⟨users, h1, h2⟩
    · simp [h1]
    · simp [h1, h2]

/-- Witness for the C10 theorem: applied to the concrete two-user room. -/
theorem handle_disconnect_presence_only_witness :
    (dGet cmC2.rooms 1 =
        some [(1, ⟨1, "active", 0, [10]⟩), (2, ⟨2, "active", 0, [20]⟩)]) ∧
    roomsConnections (handle_disconnect cmC2 1 1 7).1.1 = roomsConnections cmC2 ∧
    dGet (dGetD (handle_disconnect cmC2 1 1 7).1.1.rooms 1 []) 1 =
      some ⟨1, "offline", 7, [10]⟩ :=
  ⟨by decide,
    (handle_disconnect_presence_only.1 cmC2 1 1 7).1,
    ((handle_disconnect_presence_only.2.1 cmC2 1 1 7
      [(1, ⟨1, "active", 0, [10]⟩), (2, ⟨2, "active", 0, [20]⟩)]
      ⟨1, "active", 0, [10]⟩ (by decide) (by decide)).1)⟩

/-! ### C5: socket counting over the registry -/

/-- A realistic multi-device sequence: user 1 opens two sockets in room 1,
switches socket 10 to room 2, then switches socket 11 to room 3 (the removal
half looks in user_room_map, which now records room 2, so socket 11 is never
removed from room 1), then closes socket 11. -/
def opsC5 : List COp :=
  [.conn 10 1 (some 1), .conn 11 1 (some 1), .switch 10 1 2, .switch 11 1 3,
    .disc 11 1 none]

/-- C5 counterexample: after this connect/switchRoom/disconnect sequence the
closed socket 11 is still registered to user 1 in room 1, so room 1 counts
one connection while it holds zero currently-open sockets — a socket is
leaked and the claimed count equality fails. -/
theorem connection_count_counterexample :
    registeredB (runOps initialWorld opsC5).cm 1 1 11 = true ∧
    (11 ∉ (runOps initialWorld opsC5).opens) ∧
    roomConnSum (dGetD (runOps initialWorld opsC5).cm.rooms 1 []) = 1 ∧
    ((roomSocks (dGetD (runOps initialWorld opsC5).cm.rooms 1 [])).filter
      (fun w => decide (w ∈ (runOps initialWorld opsC5).opens))).length = 0 := by
  refine ⟨by decide, by decide, by decide, by decide⟩

/-! Toolkit for the registry invariant. -/

/-- Whether socket w is in user u's connection set in a user table. -/
def usersRegB (users : List (Nat × UserConnection)) (u w : Nat) : Bool :=
  match dGet users u with
  | none => false
  | some uc => decide (w ∈ uc.connections)

/-- Whether socket w is registered at room r, user u in a rooms table. -/
def regB (rooms : List (Nat × List (Nat × UserConnection))) (r u w : Nat) :
    Bool :=
  match dGet rooms r with
  | none => false
  | some users => usersRegB users u w

theorem registeredB_eq_regB (cm : ConnectionManager) (r u w : Nat) :
    registeredB cm r u w = regB cm.rooms r u w := rfl

theorem usersRegB_dSet_self (users : List (Nat × UserConnection))
    (u w : Nat) (uc : UserConnection) :
    usersRegB (dSet users u uc) u w = decide (w ∈ uc.connections) := by
  unfold usersRegB
  rw [dGet_dSet_self]

theorem usersRegB_dSet_ne (users : List (Nat × UserConnection))
    (u u1 w : Nat) (uc : UserConnection) (h : u1 ≠ u) :
    usersRegB (dSet users u uc) u1 w = usersRegB users u1 w := by
  unfold usersRegB
  rw [dGet_dSet_ne _ _ _ _ (fun hx => h hx.symm)]

theorem usersRegB_dDel_self (users : List (Nat × UserConnection)) (u w : Nat) :
    usersRegB (dDel users u) u w = false := by
  unfold usersRegB
  rw [dGet_dDel_self]

theorem usersRegB_dDel_ne (users : List (Nat × UserConnection))
    (u u1 w : Nat) (h : u1 ≠ u) :
    usersRegB (dDel users u) u1 w = usersRegB users u1 w := by
  unfold usersRegB
  rw [dGet_dDel_ne _ _ _ h]

theorem regB_dSet_self (rooms : List (Nat × List (Nat × UserConnection)))
    (r u w : Nat) (users : List (Nat × UserConnection)) :
    regB (dSet rooms r users) r u w = usersRegB users u w := by
  unfold regB
  rw [dGet_dSet_self]

theorem regB_dSet_ne (rooms : List (Nat × List (Nat × UserConnection)))
    (r r1 u w : Nat) (users : List (Nat × UserConnection)) (h : r1 ≠ r) :
    regB (dSet rooms r users) r1 u w = regB rooms r1 u w := by
  unfold regB
  rw [dGet_dSet_ne _ _ _ _ (fun hx => h hx.symm)]

theorem regB_dDel_self (rooms : List (Nat × List (Nat × UserConnection)))
    (r u w : Nat) : regB (dDel rooms r) r u w = false := by
  unfold regB
  rw [dGet_dDel_self]

theorem regB_dDel_ne (rooms : List (Nat × List (Nat × UserConnection)))
    (r r1 u w : Nat) (h : r1 ≠ r) :
    regB (dDel rooms r) r1 u w = regB rooms r1 u w := by
  unfold regB
  rw [dGet_dDel_ne _ _ _ h]

/-- Lookup in an extension by a fresh binding, absent case. -/
theorem dGet_append_of_none {α β : Type} [DecidableEq α] (d : List (α × β))
    (a b : α) (v : β) (h : dGet d b = none) :
    dGet (d ++ [(a, v)]) b = if a = b then some v else none := by
  induction d with
  | nil => simp [dGet]
  | cons kv rest ih =>
      obtain ⟨k, w⟩ := kv
      by_cases hk : k = b
      · simp [dGet, hk] at h
      · simp only [dGet, hk, List.cons_append, if_false, ite_false] at h ⊢
        exact ih h

/-- Lookup in an extension by a fresh binding, present case. -/
theorem dGet_append_of_some {α β : Type} [DecidableEq α] (d : List (α × β))
    (a b : α) (v w : β) (h : dGet d b = some w) :
    dGet (d ++ [(a, v)]) b = some w := by
  induction d with
  | nil => simp [dGet] at h
  | cons kv rest ih =>
      obtain ⟨k, x⟩ := kv
      by_cases hk : k = b
      · simp [dGet, hk] at h ⊢
        exact h
      · simp only [dGet, hk, List.cons_append, if_false, ite_false] at h ⊢
        exact ih h

/-- A key is absent exactly when lookup fails. -/
theorem dGet_eq_none_iff {α β : Type} [DecidableEq α] (d : List (α × β))
    (a : α) : dGet d a = none ↔ a ∉ d.map Prod.fst := by
  induction d with
  | nil => simp [dGet]
  | cons kv rest ih =>
      obtain ⟨k, w⟩ := kv
      by_cases hk : k = a
      · subst hk
        simp [dGet]
      · have hak : ¬ (a = k) := fun hx => hk hx.symm
        simp only [dGet, hk, if_false, ite_false, List.map_cons, List.mem_cons,
          not_or]
        rw [ih]
        exact ⟨fun hna => ⟨hak, hna⟩, fun hp => hp.2⟩

theorem dGet_dViv_self {α β : Type} [DecidableEq α] (d : List (α × β)) (a : α)
    (v : β) : dGet (dViv d a v) a = some (dGetD d a v) := by
  unfold dViv dMem dGetD
  match h : dGet d a with
  | some w => simp [h]
  | none =>
      simp only [h, Option.isSome_none, Bool.false_eq_true, if_false,
        ite_false, Option.getD_none]
      rw [dGet_append_of_none _ _ _ _ h]
      simp

theorem dGet_dViv_ne {α β : Type} [DecidableEq α] (d : List (α × β)) (a b : α)
    (v : β) (h : b ≠ a) : dGet (dViv d a v) b = dGet d b := by
  unfold dViv
  split
  · rfl
  · match hb : dGet d b with
    | some w => exact dGet_append_of_some _ _ _ _ _ hb
    | none =>
        rw [dGet_append_of_none _ _ _ _ hb,
          if_neg (fun hx : a = b => h hx.symm)]

theorem regB_dViv (rooms : List (Nat × List (Nat × UserConnection)))
    (r r1 u w : Nat) : regB (dViv rooms r []) r1 u w = regB rooms r1 u w := by
  by_cases hr : r1 = r
  · subst hr
    unfold regB
    rw [dGet_dViv_self]
    unfold dGetD
    match h : dGet rooms r1 with
    | some users => simp [h]
    | none => simp [h, usersRegB, dGet]
  · unfold regB
    rw [dGet_dViv_ne _ _ _ _ hr]

theorem mem_setInsert {α : Type} [DecidableEq α] (x y : α) (s : List α) :
    x ∈ setInsert y s ↔ x = y ∨ x ∈ s := by
  unfold setInsert
  split
  · constructor
    · exact fun h => Or.inr h
    · rintro (rfl | h)
      · assumption
      · exact h
  · simp

theorem setInsert_nodup {α : Type} [DecidableEq α] (y : α) (s : List α)
    (h : s.Nodup) : (setInsert y s).Nodup := by
  unfold setInsert
  split
  · exact h
  · exact List.nodup_cons.2 ⟨by assumption, h⟩

theorem mem_setRemove {α : Type} [DecidableEq α] (x y : α) (s : List α) :
    x ∈ setRemove y s ↔ x ∈ s ∧ x ≠ y := by
  unfold setRemove
  simp [List.mem_filter]

theorem setRemove_nodup {α : Type} [DecidableEq α] (y : α) (s : List α)
    (h : s.Nodup) : (setRemove y s).Nodup :=
  h.filter _

/-- If deleting a key empties a dictionary, every other key was absent. -/
theorem dGet_eq_none_of_dDel_nil {α β : Type} [DecidableEq α]
    (d : List (α × β)) (a b : α) (h : dDel d a = []) (hne : b ≠ a) :
    dGet d b = none := by
  induction d with
  | nil => rfl
  | cons kv rest ih =>
      obtain ⟨k, w⟩ := kv
      by_cases hk : k = a
      · subst hk
        have h2 : dDel rest k = [] := by
          simpa [dDel, List.filter_cons] using h
        have hab : ¬ (k = b) := fun hx => hne hx.symm
        simp only [dGet, hab, if_false, ite_false]
        exact ih h2
      · exfalso
        simp [dDel, List.filter_cons, hk] at h

/-- Key membership after an assignment. -/
theorem mem_keys_dSet {α β : Type} [DecidableEq α] (d : List (α × β))
    (a x : α) (v : β) :
    x ∈ (dSet d a v).map Prod.fst ↔ x ∈ d.map Prod.fst ∨ x = a := by
  induction d with
  | nil => simp [dSet]
  | cons kv rest ih =>
      obtain ⟨k, w⟩ := kv
      by_cases hk : k = a
      · subst hk
        simp [dSet]
        tauto
      · simp [dSet, hk, ih]
        tauto

/-- Keys of an assignment result. -/
theorem keysNodup_dSet {α β : Type} [DecidableEq α] (d : List (α × β)) (a : α)
    (v : β) (h : (d.map Prod.fst).Nodup) :
    ((dSet d a v).map Prod.fst).Nodup := by
  induction d with
  | nil => simp [dSet]
  | cons kv rest ih =>
      obtain ⟨k, w⟩ := kv
      simp only [List.map_cons, List.nodup_cons] at h
      by_cases hk : k = a
      · subst hk
        simp only [dSet, eq_self_iff_true, if_true, List.map_cons,
          List.nodup_cons]
        exact h
      · simp only [dSet, hk, if_false, ite_false, List.map_cons,
          List.nodup_cons]
        refine ⟨?_, ih h.2⟩
        intro hmem
        rcases (mem_keys_dSet rest a k v).1 hmem with hx | hx
        · exact h.1 hx
        · exact hk hx

/-- Deletion preserves key distinctness. -/
theorem keysNodup_dDel {α β : Type} [DecidableEq α] (d : List (α × β)) (a : α)
    (h : (d.map Prod.fst).Nodup) : ((dDel d a).map Prod.fst).Nodup :=
  h.sublist ((List.filter_sublist d).map Prod.fst)

/-- Vivification preserves key distinctness. -/
theorem keysNodup_dViv {α β : Type} [DecidableEq α] (d : List (α × β)) (a : α)
    (v : β) (h : (d.map Prod.fst).Nodup) :
    ((dViv d a v).map Prod.fst).Nodup := by
  unfold dViv dMem
  match hg : dGet d a with
  | some w => simp [hg, h]
  | none =>
      simp only [hg, Option.isSome_none, Bool.false_eq_true, if_false,
        ite_false, List.map_append, List.map_cons, List.map_nil]
      have ha : a ∉ d.map Prod.fst := (dGet_eq_none_iff d a).1 hg
      simp [List.nodup_append, h, ha]

/-! The rooms-table transforms shared by the three registry operations:
connect and the second half of switch_room add a connection, disconnect and
the first half of switch_room remove one.  Presence-cache and broadcast
effects do not touch the rooms table (broadcast_presence_frame), so each
operation's rooms table is one of these transforms. -/

/-- The add-a-connection half (connect, and switch_room's new room). -/
def addHalf (rooms : List (Nat × List (Nat × UserConnection)))
    (w u room t : Nat) : List (Nat × List (Nat × UserConnection)) :=
  let rooms3 := dViv rooms room []
  let usersN := dGetD rooms3 room []
  let usersN2 :=
    match dGet usersN u with
    | some user_conn =>
        dSet usersN u
          { user_id := u, status := "active", last_active := t,
            connections := setInsert w user_conn.connections }
    | none =>
        dSet usersN u
          { user_id := u, status := "active", last_active := t,
            connections := [w] }
  dSet rooms3 room usersN2

/-- The remove-a-connection half (disconnect, and switch_room's old room). -/
def removeHalf (rooms : List (Nat × List (Nat × UserConnection)))
    (w u room : Nat) : List (Nat × List (Nat × UserConnection)) :=
  let rooms1 := dViv rooms room []
  match dGet (dGetD rooms1 room []) u with
  | some user_conn =>
      if w ∈ user_conn.connections then
        let remaining := setRemove w user_conn.connections
        if remaining ≠ [] then
          dSet rooms1 room (dSet (dGetD rooms1 room []) u
            { user_conn with connections := remaining })
        else
          let users_del := dDel (dGetD rooms1 room []) u
          if users_del = [] ∧ room ≠ UNASSIGNED then dDel rooms1 room
          else dSet rooms1 room users_del
      else rooms1
  | none => rooms1

theorem connect_rooms_eq (cm : ConnectionManager) (w u : Nat)
    (ro : Option Nat) (t : Nat) :
    (connect cm w u ro t).1.rooms = addHalf cm.rooms w u (ro.getD UNASSIGNED) t := by
  unfold connect addHalf
  cases ro with
  | none => rfl
  | some rid =>
      simp only [Option.getD_some]
      rw [(broadcast_presence_frame _ rid t).1]
      rfl

theorem disconnect_rooms_eq (cm : ConnectionManager) (w u : Nat)
    (ro : Option Nat) (t : Nat) :
    (disconnect cm w u ro t).1.rooms =
      removeHalf cm.rooms w u (ro.getD (dGetD cm.user_room_map u UNASSIGNED)) := by
  unfold disconnect removeHalf
  simp only []
  set actual := ro.getD (dGetD cm.user_room_map u UNASSIGNED) with hact
  cases hgu : dGet (dGetD (dViv cm.rooms actual []) actual []) u with
  | none => simp only [hgu]
  | some uc =>
      simp only [hgu]
      by_cases hw : w ∈ uc.connections
      · simp only [eq_true hw, if_true, ite_true]
        by_cases hrem : setRemove w uc.connections ≠ []
        · simp only [eq_true hrem, if_true, ite_true]
          by_cases hou : actual ≠ UNASSIGNED
          · simp only [eq_true hou, if_true, ite_true]
            rw [(broadcast_presence_frame _ actual t).1]
            rfl
          · simp only [eq_false hou, if_false, ite_false]
        · simp only [eq_false hrem, if_false, ite_false]
          by_cases hdel :
              dDel (dGetD (dViv cm.rooms actual []) actual []) u = [] ∧
                actual ≠ UNASSIGNED
          · simp only [eq_true hdel, if_true, ite_true]
            by_cases hou : actual ≠ UNASSIGNED
            · simp only [eq_true hou, if_true, ite_true]
              rw [(broadcast_presence_frame _ actual t).1]
              rfl
            · simp only [eq_false hou, if_false, ite_false]
          · simp only [eq_false hdel, if_false, ite_false]
            by_cases hou : actual ≠ UNASSIGNED
            · simp only [eq_true hou, if_true, ite_true]
              rw [(broadcast_presence_frame _ actual t).1]
              rfl
            · simp only [eq_false hou, if_false, ite_false]
      · simp only [eq_false hw, if_false, ite_false]

theorem switch_rooms_eq (cm : ConnectionManager) (w u new t : Nat) :
    (switch_room cm w u new t).1.rooms =
      if dGetD cm.user_room_map u UNASSIGNED = new then cm.rooms
      else addHalf (removeHalf cm.rooms w u (dGetD cm.user_room_map u UNASSIGNED))
        w u new t := by
  unfold switch_room removeHalf addHalf
  simp only []
  set old := dGetD cm.user_room_map u UNASSIGNED with hold
  by_cases hnew : old = new
  · simp only [eq_true hnew, if_true, ite_true]
  · simp only [eq_false hnew, if_false, ite_false]
    rw [(broadcast_presence_frame _ new t).1]
    unfold invalidate_presence_cache
    simp only []
    cases hgu : dGet (dGetD (dViv cm.rooms old []) old []) u with
    | none => simp only [hgu]
    | some uc =>
        simp only [hgu]
        by_cases hw : w ∈ uc.connections
        · simp only [eq_true hw, if_true, ite_true]
          by_cases hrem : setRemove w uc.connections ≠ []
          · simp only [eq_true hrem, if_true, ite_true]
            by_cases hou : old ≠ UNASSIGNED
            · simp only [eq_true hou, if_true, ite_true]
              rw [(broadcast_presence_frame _ old t).1]
            · simp only [eq_false hou, if_false, ite_false]
          · simp only [eq_false hrem, if_false, ite_false]
            by_cases hdel :
                dDel (dGetD (dViv cm.rooms old []) old []) u = [] ∧
                  old ≠ UNASSIGNED
            · simp only [eq_true hdel, if_true, ite_true]
              by_cases hou : old ≠ UNASSIGNED
              · simp only [eq_true hou, if_true, ite_true]
                rw [(broadcast_presence_frame _ old t).1]
              · simp only [eq_false hou, if_false, ite_false]
            · simp only [eq_false hdel, if_false, ite_false]
              by_cases hou : old ≠ UNASSIGNED
              · simp only [eq_true hou, if_true, ite_true]
                rw [(broadcast_presence_frame _ old t).1]
              · simp only [eq_false hou, if_false, ite_false]
        · simp only [eq_false hw, if_false, ite_false]

theorem setInsert_ne_nil {α : Type} [DecidableEq α] (y : α) (s : List α) :
    setInsert y s ≠ [] := by
  unfold setInsert
  split
  · intro h
    subst h
    simp_all
  · simp

theorem setRemove_eq_nil {α : Type} [DecidableEq α] (y : α) (s : List α)
    (h : setRemove y s = []) : ∀ x ∈ s, x = y := by
  intro x hx
  by_contra hne
  have : x ∈ setRemove y s := (mem_setRemove x y s).2 ⟨hx, hne⟩
  rw [h] at this
  simp at this

theorem dGetD_dViv_self {α β : Type} [DecidableEq α] (d : List (α × β)) (a : α)
    (v v2 : β) : dGetD (dViv d a v) a v2 = dGetD d a v := by
  unfold dGetD
  rw [dGet_dViv_self]
  rfl

theorem regB_eq_usersRegB (rooms : List (Nat × List (Nat × UserConnection)))
    (r u w : Nat) : regB rooms r u w = usersRegB (dGetD rooms r []) u w := by
  unfold regB dGetD
  match h : dGet rooms r with
  | some users => simp [h]
  | none => simp [h, usersRegB, dGet]

/-- Adding a connection registers exactly the new (room, u, w) slot on top
of the previous registrations. -/
theorem addHalf_regB (rooms : List (Nat × List (Nat × UserConnection)))
    (w u room t r1 u1 w1 : Nat) :
    regB (addHalf rooms w u room t) r1 u1 w1 = true ↔
      (r1 = room ∧ u1 = u ∧ w1 = w) ∨ regB rooms r1 u1 w1 = true := by
  unfold addHalf
  simp only []
  by_cases hr : r1 = room
  · subst hr
    rw [regB_dSet_self]
    cases hgu : dGet (dGetD (dViv rooms r1 []) r1 []) u with
    | some uc =>
        simp only [hgu]
        by_cases hu : u1 = u
        · subst hu
          rw [usersRegB_dSet_self]
          have hreg : regB rooms r1 u1 w1 = decide (w1 ∈ uc.connections) := by
            rw [regB_eq_usersRegB]
            unfold usersRegB
            rw [← dGetD_dViv_self rooms r1 ([] : List (Nat × UserConnection)) [],
              hgu]
          rw [hreg]
          simp [mem_setInsert]
        · rw [usersRegB_dSet_ne _ _ _ _ _ hu]
          have hreg : regB rooms r1 u1 w1 =
              usersRegB (dGetD (dViv rooms r1 []) r1 []) u1 w1 := by
            rw [regB_eq_usersRegB,
              dGetD_dViv_self rooms r1 ([] : List (Nat × UserConnection)) []]
          rw [hreg]
          simp [hu]
    | none =>
        simp only [hgu]
        by_cases hu : u1 = u
        · subst hu
          rw [usersRegB_dSet_self]
          have hreg : regB rooms r1 u1 w1 = false := by
            rw [regB_eq_usersRegB]
            unfold usersRegB
            rw [← dGetD_dViv_self rooms r1 ([] : List (Nat × UserConnection)) [],
              hgu]
          rw [hreg]
          simp
        · rw [usersRegB_dSet_ne _ _ _ _ _ hu]
          have hreg : regB rooms r1 u1 w1 =
              usersRegB (dGetD (dViv rooms r1 []) r1 []) u1 w1 := by
            rw [regB_eq_usersRegB,
              dGetD_dViv_self rooms r1 ([] : List (Nat × UserConnection)) []]
          rw [hreg]
          simp [hu]
  · rw [regB_dSet_ne _ _ _ _ _ _ hr, regB_dViv]
    simp [hr]

/-- Removing a connection unregisters exactly the (room, u, w) slot. -/
theorem removeHalf_regB (rooms : List (Nat × List (Nat × UserConnection)))
    (w u room r1 u1 w1 : Nat) :
    regB (removeHalf rooms w u room) r1 u1 w1 = true ↔
      regB rooms r1 u1 w1 = true ∧ ¬(r1 = room ∧ u1 = u ∧ w1 = w) := by
  unfold removeHalf
  simp only []
  have husers : dGetD (dViv rooms room []) room [] = dGetD rooms room [] :=
    dGetD_dViv_self rooms room ([] : List (Nat × UserConnection)) []
  cases hgu : dGet (dGetD (dViv rooms room []) room []) u with
  | none =>
      simp only [hgu, regB_dViv]
      constructor
      · intro h
        refine ⟨h, ?_⟩
        rintro ⟨rfl, rfl, rfl⟩
        rw [regB_eq_usersRegB] at h
        unfold usersRegB at h
        rw [← husers, hgu] at h
        simp at h
      · exact fun h => h.1
  | some uc =>
      simp only [hgu]
      have hregu : regB rooms room u w1 = decide (w1 ∈ uc.connections) := by
        rw [regB_eq_usersRegB]
        unfold usersRegB
        rw [← husers, hgu]
      by_cases hw : w ∈ uc.connections
      · simp only [eq_true hw, if_true, ite_true]
        by_cases hrem : setRemove w uc.connections ≠ []
        · simp only [eq_true hrem, if_true, ite_true]
          by_cases hr : r1 = room
          · subst hr
            rw [regB_dSet_self]
            by_cases hu : u1 = u
            · subst hu
              rw [usersRegB_dSet_self]
              simp only [decide_eq_true_eq, mem_setRemove]
              rw [hregu]
              simp only [decide_eq_true_eq]
              constructor
              · rintro ⟨hin, hne⟩
                exact ⟨hin, by rintro ⟨_, _, rfl⟩; exact hne rfl⟩
              · rintro ⟨hin, hno⟩
                exact ⟨hin, fun hx => hno (by simp [hx])⟩
            · rw [usersRegB_dSet_ne _ _ _ _ _ hu]
              have : regB rooms r1 u1 w1 =
                  usersRegB (dGetD rooms r1 []) u1 w1 := regB_eq_usersRegB _ _ _ _
              rw [this, ← husers]
              simp [hu]
          · rw [regB_dSet_ne _ _ _ _ _ _ hr, regB_dViv]
            simp [hr]
        · simp only [eq_false hrem, if_false, ite_false]
          have hall : ∀ x ∈ uc.connections, x = w := by
            have := setRemove_eq_nil w uc.connections (by
              by_contra hx
              exact hrem hx)
            exact this
          by_cases hdel :
              dDel (dGetD (dViv rooms room []) room []) u = [] ∧
                room ≠ UNASSIGNED
          · simp only [eq_true hdel, if_true, ite_true]
            by_cases hr : r1 = room
            · subst hr
              rw [regB_dDel_self]
              constructor
              · intro h
                simp at h
              · rintro ⟨h, hno⟩
                exfalso
                rw [regB_eq_usersRegB] at h
                unfold usersRegB at h
                by_cases hu : u1 = u
                · subst hu
                  rw [← husers, hgu] at h
                  simp only [decide_eq_true_eq] at h
                  exact hno (by simp [hall w1 h])
                · rw [← husers,
                    dGet_eq_none_of_dDel_nil _ _ _ hdel.1 hu] at h
                  simp at h
            · rw [regB_dDel_ne _ _ _ _ _ hr, regB_dViv]
              simp [hr]
          · simp only [eq_false hdel, if_false, ite_false]
            by_cases hr : r1 = room
            · subst hr
              rw [regB_dSet_self]
              by_cases hu : u1 = u
              · subst hu
                rw [usersRegB_dDel_self]
                constructor
                · intro h
                  simp at h
                · rintro ⟨h, hno⟩
                  exfalso
                  rw [hregu] at h
                  simp only [decide_eq_true_eq] at h
                  exact hno (by simp [hall w1 h])
              · rw [usersRegB_dDel_ne _ _ _ _ hu]
                have : regB rooms r1 u1 w1 =
                    usersRegB (dGetD rooms r1 []) u1 w1 := regB_eq_usersRegB _ _ _ _
                rw [this, ← husers]
                simp [hu]
            · rw [regB_dSet_ne _ _ _ _ _ _ hr, regB_dViv]
              simp [hr]
      · simp only [eq_false hw, if_false, ite_false]
        rw [regB_dViv]
        constructor
        · intro h
          refine ⟨h, ?_⟩
          rintro ⟨rfl, rfl, rfl⟩
          rw [hregu] at h
          simp only [decide_eq_true_eq] at h
          exact hw h
        · exact fun h => h.1

/-- Adding a connection preserves nonempty, duplicate-free connection sets
and duplicate-free user tables. -/
theorem addHalf_structure (rooms : List (Nat × List (Nat × UserConnection)))
    (w u room t : Nat)
    (hA : ∀ r users u1 uc1, dGet rooms r = some users →
        dGet users u1 = some uc1 →
        uc1.connections ≠ [] ∧ uc1.connections.Nodup)
    (hD : ∀ r users, dGet rooms r = some users → (users.map Prod.fst).Nodup) :
    (∀ r users u1 uc1, dGet (addHalf rooms w u room t) r = some users →
        dGet users u1 = some uc1 →
        uc1.connections ≠ [] ∧ uc1.connections.Nodup) ∧
    (∀ r users, dGet (addHalf rooms w u room t) r = some users →
        (users.map Prod.fst).Nodup) := by
  have husersT : dGetD (dViv rooms room []) room [] = dGetD rooms room [] :=
    dGetD_dViv_self rooms room ([] : List (Nat × UserConnection)) []
  have hTnodup : ((dGetD rooms room []).map Prod.fst).Nodup := by
    unfold dGetD
    match h : dGet rooms room with
    | some l => exact hD room l h
    | none => simp
  have hTconn : ∀ u1 uc1, dGet (dGetD rooms room []) u1 = some uc1 →
      uc1.connections ≠ [] ∧ uc1.connections.Nodup := by
    intro u1 uc1 hx
    unfold dGetD at hx
    match h : dGet rooms room with
    | some l =>
        rw [h] at hx
        exact hA room l u1 uc1 h hx
    | none =>
        rw [h] at hx
        simp [dGet] at hx
  constructor
  · intro r users u1 uc1 hget hgu1
    unfold addHalf at hget
    simp only [] at hget
    by_cases hr : r = room
    · subst hr
      rw [dGet_dSet_self] at hget
      rw [husersT] at hget
      cases hgu : dGet (dGetD rooms r []) u with
      | some uc =>
          rw [hgu] at hget
          injection hget with hget
          subst hget
          by_cases hu : u1 = u
          · subst hu
            rw [dGet_dSet_self] at hgu1
            injection hgu1 with hgu1
            subst hgu1
            exact ⟨setInsert_ne_nil w uc.connections,
              setInsert_nodup w uc.connections (hTconn u1 uc hgu).2⟩
          · rw [dGet_dSet_ne _ _ _ _ (fun hx => hu hx.symm)] at hgu1
            exact hTconn u1 uc1 hgu1
      | none =>
          rw [hgu] at hget
          injection hget with hget
          subst hget
          by_cases hu : u1 = u
          · subst hu
            rw [dGet_dSet_self] at hgu1
            injection hgu1 with hgu1
            subst hgu1
            simp
          · rw [dGet_dSet_ne _ _ _ _ (fun hx => hu hx.symm)] at hgu1
            exact hTconn u1 uc1 hgu1
    · rw [dGet_dSet_ne _ _ _ _ (fun hx => hr hx.symm),
        dGet_dViv_ne _ _ _ _ hr] at hget
      exact hA r users u1 uc1 hget hgu1
  · intro r users hget
    unfold addHalf at hget
    simp only [] at hget
    by_cases hr : r = room
    · subst hr
      rw [dGet_dSet_self] at hget
      rw [husersT] at hget
      cases hgu : dGet (dGetD rooms r []) u with
      | some uc =>
          rw [hgu] at hget
          injection hget with hget
          subst hget
          exact keysNodup_dSet _ _ _ hTnodup
      | none =>
          rw [hgu] at hget
          injection hget with hget
          subst hget
          exact keysNodup_dSet _ _ _ hTnodup
    · rw [dGet_dSet_ne _ _ _ _ (fun hx => hr hx.symm),
        dGet_dViv_ne _ _ _ _ hr] at hget
      exact hD r users hget

/-- Removing a connection preserves nonempty, duplicate-free connection sets
and duplicate-free user tables. -/
theorem removeHalf_structure (rooms : List (Nat × List (Nat × UserConnection)))
    (w u room : Nat)
    (hA : ∀ r users u1 uc1, dGet rooms r = some users →
        dGet users u1 = some uc1 →
        uc1.connections ≠ [] ∧ uc1.connections.Nodup)
    (hD : ∀ r users, dGet rooms r = some users → (users.map Prod.fst).Nodup) :
    (∀ r users u1 uc1, dGet (removeHalf rooms w u room) r = some users →
        dGet users u1 = some uc1 →
        uc1.connections ≠ [] ∧ uc1.connections.Nodup) ∧
    (∀ r users, dGet (removeHalf rooms w u room) r = some users →
        (users.map Prod.fst).Nodup) := by
  have husersT : dGetD (dViv rooms room []) room [] = dGetD rooms room [] :=
    dGetD_dViv_self rooms room ([] : List (Nat × UserConnection)) []
  have hTnodup : ((dGetD rooms room []).map Prod.fst).Nodup := by
    unfold dGetD
    match h : dGet rooms room with
    | some l => exact hD room l h
    | none => simp
  have hTconn : ∀ u1 uc1, dGet (dGetD rooms room []) u1 = some uc1 →
      uc1.connections ≠ [] ∧ uc1.connections.Nodup := by
    intro u1 uc1 hx
    unfold dGetD at hx
    match h : dGet rooms room with
    | some l =>
        rw [h] at hx
        exact hA room l u1 uc1 h hx
    | none =>
        rw [h] at hx
        simp [dGet] at hx
  have hPres : ∀ r users, dGet (dViv rooms room []) r = some users →
      (∀ u1 uc1, dGet users u1 = some uc1 →
        uc1.connections ≠ [] ∧ uc1.connections.Nodup) ∧
      (users.map Prod.fst).Nodup := by
    intro r users hget
    by_cases hr : r = room
    · subst hr
      rw [dGet_dViv_self] at hget
      injection hget with hget
      subst hget
      exact ⟨hTconn, hTnodup⟩
    · rw [dGet_dViv_ne _ _ _ _ hr] at hget
      exact ⟨fun u1 uc1 hx => hA r users u1 uc1 hget hx, hD r users hget⟩
  unfold removeHalf
  simp only []
  cases hgu : dGet (dGetD (dViv rooms room []) room []) u with
  | none =>
      exact ⟨fun r users u1 uc1 hget hx => (hPres r users hget).1 u1 uc1 hx,
        fun r users hget => (hPres r users hget).2⟩
  | some uc =>
      rw [husersT] at hgu
      simp only [husersT, hgu]
      by_cases hw : w ∈ uc.connections
      · simp only [eq_true hw, if_true, ite_true]
        by_cases hrem : setRemove w uc.connections ≠ []
        · simp only [eq_true hrem, if_true, ite_true]
          constructor
          · intro r users u1 uc1 hget hgu1
            by_cases hr : r = room
            · subst hr
              rw [dGet_dSet_self] at hget
              injection hget with hget
              subst hget
              by_cases hu : u1 = u
              · subst hu
                rw [dGet_dSet_self] at hgu1
                injection hgu1 with hgu1
                subst hgu1
                exact ⟨hrem, setRemove_nodup w uc.connections
                  (hTconn u1 uc hgu).2⟩
              · rw [dGet_dSet_ne _ _ _ _ (fun hx => hu hx.symm)] at hgu1
                exact hTconn u1 uc1 hgu1
            · rw [dGet_dSet_ne _ _ _ _ (fun hx => hr hx.symm),
                dGet_dViv_ne _ _ _ _ hr] at hget
              exact hA r users u1 uc1 hget hgu1
          · intro r users hget
            by_cases hr : r = room
            · subst hr
              rw [dGet_dSet_self] at hget
              injection hget with hget
              subst hget
              exact keysNodup_dSet _ _ _ hTnodup
            · rw [dGet_dSet_ne _ _ _ _ (fun hx => hr hx.symm),
                dGet_dViv_ne _ _ _ _ hr] at hget
              exact hD r users hget
        · simp only [eq_false hrem, if_false, ite_false]
          by_cases hdel :
              dDel (dGetD rooms room []) u = [] ∧
                room ≠ UNASSIGNED
          · simp only [eq_true hdel, if_true, ite_true]
            constructor
            · intro r users u1 uc1 hget hgu1
              by_cases hr : r = room
              · subst hr
                rw [dGet_dDel_self] at hget
                simp at hget
              · rw [dGet_dDel_ne _ _ _ hr,
                  dGet_dViv_ne _ _ _ _ hr] at hget
                exact hA r users u1 uc1 hget hgu1
            · intro r users hget
              by_cases hr : r = room
              · subst hr
                rw [dGet_dDel_self] at hget
                simp at hget
              · rw [dGet_dDel_ne _ _ _ hr,
                  dGet_dViv_ne _ _ _ _ hr] at hget
                exact hD r users hget
          · simp only [eq_false hdel, if_false, ite_false]
            constructor
            · intro r users u1 uc1 hget hgu1
              by_cases hr : r = room
              · subst hr
                rw [dGet_dSet_self] at hget
                injection hget with hget
                subst hget
                by_cases hu : u1 = u
                · subst hu
                  rw [dGet_dDel_self] at hgu1
                  simp at hgu1
                · rw [dGet_dDel_ne _ _ _ hu] at hgu1
                  exact hTconn u1 uc1 hgu1
              · rw [dGet_dSet_ne _ _ _ _ (fun hx => hr hx.symm),
                  dGet_dViv_ne _ _ _ _ hr] at hget
                exact hA r users u1 uc1 hget hgu1
            · intro r users hget
              by_cases hr : r = room
              · subst hr
                rw [dGet_dSet_self] at hget
                injection hget with hget
                subst hget
                exact keysNodup_dDel _ _ hTnodup
              · rw [dGet_dSet_ne _ _ _ _ (fun hx => hr hx.symm),
                  dGet_dViv_ne _ _ _ _ hr] at hget
                exact hD r users hget
      · simp only [eq_false hw, if_false, ite_false]
        exact ⟨fun r users u1 uc1 hget hx => (hPres r users hget).1 u1 uc1 hx,
          fun r users hget => (hPres r users hget).2⟩

/-- Socket w is registered nowhere except possibly at (r, u). -/
def sockOnlyAt (rooms : List (Nat × List (Nat × UserConnection)))
    (w r u : Nat) : Bool :=
  rooms.all (fun rp => rp.2.all (fun up =>
    !(decide (w ∈ up.2.connections)) || (decide (rp.1 = r) && decide (up.1 = u))))

theorem sockOnlyAt_spec (rooms : List (Nat × List (Nat × UserConnection)))
    (w r u : Nat) (h : sockOnlyAt rooms w r u = true) :
    ∀ r1 u1, regB rooms r1 u1 w = true → r1 = r ∧ u1 = u := by
  intro r1 u1 hreg
  unfold regB at hreg
  match hg : dGet rooms r1 with
  | none =>
      simp only [hg] at hreg
      exact Bool.noConfusion hreg
  | some users =>
      simp only [hg] at hreg
      unfold usersRegB at hreg
      match hu : dGet users u1 with
      | none =>
          simp only [hu] at hreg
          exact Bool.noConfusion hreg
      | some uc =>
          simp only [hu, decide_eq_true_eq] at hreg
          have hmem1 := dGet_mem rooms r1 users hg
          have hmem2 := dGet_mem users u1 uc hu
          unfold sockOnlyAt at h
          rw [List.all_eq_true] at h
          have h1 := h _ hmem1
          rw [List.all_eq_true] at h1
          have h2 := h1 _ hmem2
          simp only [Bool.or_eq_true, Bool.not_eq_true, Bool.and_eq_true,
            decide_eq_true_eq, decide_eq_false_iff_not] at h2
          rcases h2 with h2 | h2
          · simp at h2
            exact absurd hreg h2
          · exact h2

/-- The registry invariant over a world: every registered user keeps a
nonempty, duplicate-free connection set; a socket sits in at most one
(room, user) slot; every registered socket is currently open; and each
room's user table has distinct keys. -/
def Inv (world : World) : Prop :=
  (∀ r users u uc, dGet world.cm.rooms r = some users →
      dGet users u = some uc →
      uc.connections ≠ [] ∧ uc.connections.Nodup) ∧
  (∀ r1 u1 r2 u2 w, regB world.cm.rooms r1 u1 w = true →
      regB world.cm.rooms r2 u2 w = true → r1 = r2 ∧ u1 = u2) ∧
  (∀ r u w, regB world.cm.rooms r u w = true → w ∈ world.opens) ∧
  (∀ r users, dGet world.cm.rooms r = some users →
      (users.map Prod.fst).Nodup)

/-- Well-formedness of one operation: a connect presents a socket that is
not already open; a switch or disconnect presents a socket that is not
registered anywhere other than the slot the operation will remove it from
(for a switch, the room the user_room_map records for the user; for a
disconnect, the explicit room if given, else the mapped room). -/
def WFOp (world : World) : COp → Prop
  | .conn w _ _ => w ∉ world.opens
  | .switch w u _ =>
      w ∈ world.opens ∧
      sockOnlyAt world.cm.rooms w (dGetD world.cm.user_room_map u UNASSIGNED)
        u = true
  | .disc w u ro =>
      sockOnlyAt world.cm.rooms w
        (ro.getD (dGetD world.cm.user_room_map u UNASSIGNED)) u = true

instance (world : World) (op : COp) : Decidable (WFOp world op) :=
  match op with
  | .conn w _ _ => inferInstanceAs (Decidable (w ∉ world.opens))
  | .switch w u _ =>
      inferInstanceAs (Decidable (w ∈ world.opens ∧
        sockOnlyAt world.cm.rooms w
          (dGetD world.cm.user_room_map u UNASSIGNED) u = true))
  | .disc w u ro =>
      inferInstanceAs (Decidable (sockOnlyAt world.cm.rooms w
        (ro.getD (dGetD world.cm.user_room_map u UNASSIGNED)) u = true))

/-- Well-formedness of an operation sequence from a given world. -/
def WFSeq : World → List COp → Prop
  | _, [] => True
  | world, op :: ops => WFOp world op ∧ WFSeq (applyOp world op) ops

instance instWFSeqDec : (world : World) → (ops : List COp) →
    Decidable (WFSeq world ops)
  | _, [] => .isTrue trivial
  | world, op :: ops =>
      haveI := instWFSeqDec (applyOp world op) ops
      inferInstanceAs (Decidable (WFOp world op ∧ WFSeq (applyOp world op) ops))

/-- One well-formed operation preserves the registry invariant. -/
theorem inv_step (world : World) (op : COp) (hInv : Inv world)
    (hWF : WFOp world op) : Inv (applyOp world op) := by
  obtain ⟨hA, hB, hC, hD⟩ := hInv
  cases op with
  | conn w u ro =>
      have hrooms : (applyOp world (.conn w u ro)).cm.rooms =
          addHalf world.cm.rooms w u (ro.getD UNASSIGNED) 0 :=
        connect_rooms_eq world.cm w u ro 0
      have hopens : (applyOp world (.conn w u ro)).opens =
          setInsert w world.opens := rfl
      have hWFc : w ∉ world.opens := hWF
      refine ⟨?_, ?_, ?_, ?_⟩
      · rw [hrooms]
        exact (addHalf_structure _ _ _ _ _ hA hD).1
      · intro r1 u1 r2 u2 w1 h1 h2
        rw [hrooms] at h1 h2
        rcases (addHalf_regB _ _ _ _ _ _ _ _).1 h1 with ⟨rfl, rfl, rfl⟩ | hp1
        · rcases (addHalf_regB _ _ _ _ _ _ _ _).1 h2 with ⟨rfl, rfl, _⟩ | hp2
          · exact ⟨rfl, rfl⟩
          · exact absurd (hC _ _ _ hp2) hWFc
        · rcases (addHalf_regB _ _ _ _ _ _ _ _).1 h2 with ⟨rfl, rfl, rfl⟩ | hp2
          · exact absurd (hC _ _ _ hp1) hWFc
          · exact hB _ _ _ _ _ hp1 hp2
      · intro r u1 w1 h
        rw [hrooms] at h
        rw [hopens]
        rcases (addHalf_regB _ _ _ _ _ _ _ _).1 h with ⟨_, _, rfl⟩ | hp
        · exact (mem_setInsert _ _ _).2 (Or.inl rfl)
        · exact (mem_setInsert _ _ _).2 (Or.inr (hC _ _ _ hp))
      · rw [hrooms]
        exact (addHalf_structure _ _ _ _ _ hA hD).2
  | switch w u new =>
      obtain ⟨hwopen, hWFs⟩ := hWF
      have hWFreg := sockOnlyAt_spec _ _ _ _ hWFs
      have hopens : (applyOp world (.switch w u new)).opens = world.opens := rfl
      by_cases hold : dGetD world.cm.user_room_map u UNASSIGNED = new
      · have hrooms : (applyOp world (.switch w u new)).cm.rooms =
            world.cm.rooms := by
          show (switch_room world.cm w u new 0).1.rooms = world.cm.rooms
          rw [switch_rooms_eq, if_pos hold]
        rw [Inv]
        rw [hrooms, hopens]
        exact ⟨hA, hB, hC, hD⟩
      · have hrooms : (applyOp world (.switch w u new)).cm.rooms =
            addHalf (removeHalf world.cm.rooms w u
              (dGetD world.cm.user_room_map u UNASSIGNED)) w u new 0 := by
          show (switch_room world.cm w u new 0).1.rooms = _
          rw [switch_rooms_eq, if_neg hold]
        have hRH := removeHalf_structure world.cm.rooms w u
          (dGetD world.cm.user_room_map u UNASSIGNED) hA hD
        refine ⟨?_, ?_, ?_, ?_⟩
        · rw [hrooms]
          exact (addHalf_structure _ _ _ _ _ hRH.1 hRH.2).1
        · intro r1 u1 r2 u2 w1 h1 h2
          rw [hrooms] at h1 h2
          rcases (addHalf_regB _ _ _ _ _ _ _ _).1 h1 with ⟨rfl, rfl, rfl⟩ | hp1
          · rcases (addHalf_regB _ _ _ _ _ _ _ _).1 h2 with ⟨rfl, rfl, _⟩ | hp2
            · exact ⟨rfl, rfl⟩
            · obtain ⟨hp2r, hp2no⟩ := (removeHalf_regB _ _ _ _ _ _ _).1 hp2
              obtain ⟨hr2, hu2⟩ := hWFreg _ _ hp2r
              exact absurd ⟨hr2, hu2, rfl⟩ hp2no
          · rcases (addHalf_regB _ _ _ _ _ _ _ _).1 h2 with ⟨rfl, rfl, rfl⟩ | hp2
            · obtain ⟨hp1r, hp1no⟩ := (removeHalf_regB _ _ _ _ _ _ _).1 hp1
              obtain ⟨hr1, hu1⟩ := hWFreg _ _ hp1r
              exact absurd ⟨hr1, hu1, rfl⟩ hp1no
            · obtain ⟨hp1r, _⟩ := (removeHalf_regB _ _ _ _ _ _ _).1 hp1
              obtain ⟨hp2r, _⟩ := (removeHalf_regB _ _ _ _ _ _ _).1 hp2
              exact hB _ _ _ _ _ hp1r hp2r
        · intro r u1 w1 h
          rw [hrooms] at h
          rw [hopens]
          rcases (addHalf_regB _ _ _ _ _ _ _ _).1 h with ⟨_, _, rfl⟩ | hp
          · exact hwopen
          · obtain ⟨hpr, _⟩ := (removeHalf_regB _ _ _ _ _ _ _).1 hp
            exact hC _ _ _ hpr
        · rw [hrooms]
          exact (addHalf_structure _ _ _ _ _ hRH.1 hRH.2).2
  | disc w u ro =>
      have hWFreg := sockOnlyAt_spec _ _ _ _ hWF
      have hrooms : (applyOp world (.disc w u ro)).cm.rooms =
          removeHalf world.cm.rooms w u
            (ro.getD (dGetD world.cm.user_room_map u UNASSIGNED)) :=
        disconnect_rooms_eq world.cm w u ro 0
      have hopens : (applyOp world (.disc w u ro)).opens =
          setRemove w world.opens := rfl
      have hRH := removeHalf_structure world.cm.rooms w u
        (ro.getD (dGetD world.cm.user_room_map u UNASSIGNED)) hA hD
      refine ⟨?_, ?_, ?_, ?_⟩
      · rw [hrooms]
        exact hRH.1
      · intro r1 u1 r2 u2 w1 h1 h2
        rw [hrooms] at h1 h2
        obtain ⟨hp1, _⟩ := (removeHalf_regB _ _ _ _ _ _ _).1 h1
        obtain ⟨hp2, _⟩ := (removeHalf_regB _ _ _ _ _ _ _).1 h2
        exact hB _ _ _ _ _ hp1 hp2
      · intro r u1 w1 h
        rw [hrooms] at h
        rw [hopens]
        obtain ⟨hp, hno⟩ := (removeHalf_regB _ _ _ _ _ _ _).1 h
        refine (mem_setRemove _ _ _).2 ⟨hC _ _ _ hp, ?_⟩
        intro hww
        subst hww
        obtain ⟨hr, hu⟩ := hWFreg _ _ hp
        exact hno ⟨hr, hu, rfl⟩
      · rw [hrooms]
        exact hRH.2

/-- The invariant holds along every well-formed run. -/
theorem inv_runOps (world : World) (ops : List COp) (hInv : Inv world)
    (hWF : WFSeq world ops) : Inv (runOps world ops) := by
  induction ops generalizing world with
  | nil => exact hInv
  | cons op ops ih =>
      exact ih (applyOp world op) (inv_step world op hInv hWF.1) hWF.2

/-- The empty world satisfies the invariant. -/
theorem inv_initial : Inv initialWorld := by
  refine ⟨?_, ?_, ?_, ?_⟩
  · intro r users u uc h
    simp [initialWorld, emptyManager, dGet] at h
  · intro r1 u1 r2 u2 w h
    simp [initialWorld, emptyManager, regB, dGet] at h
  · intro r u w h
    simp [initialWorld, emptyManager, regB, dGet] at h
  · intro r users h
    simp [initialWorld, emptyManager, dGet] at h

/-- applyOp only touches opens by set insertion or removal. -/
theorem opens_nodup_step (world : World) (op : COp) (h : world.opens.Nodup) :
    (applyOp world op).opens.Nodup := by
  cases op with
  | conn w u r => exact setInsert_nodup w world.opens h
  | switch w u r => exact h
  | disc w u r => exact setRemove_nodup w world.opens h

theorem opens_nodup (world : World) (ops : List COp) (h : world.opens.Nodup) :
    (runOps world ops).opens.Nodup := by
  induction ops generalizing world with
  | nil => exact h
  | cons op ops ih => exact ih _ (opens_nodup_step world op h)

/-- With distinct keys, list membership determines the lookup. -/
theorem dGet_fst_of_mem_nodup {α β : Type} [DecidableEq α] (d : List (α × β))
    (hk : (d.map Prod.fst).Nodup) (p : α × β) (hm : p ∈ d) :
    dGet d p.1 = some p.2 := by
  induction d with
  | nil => cases hm
  | cons kv rest ih =>
      obtain ⟨k, w⟩ := kv
      obtain ⟨a, v⟩ := p
      simp only [List.map_cons, List.nodup_cons] at hk
      rcases List.mem_cons.1 hm with he | hm2
      · obtain ⟨rfl, rfl⟩ := Prod.mk.injEq .. ▸ he
        simp [dGet]
      · by_cases hka : k = a
        · subst hka
          exact absurd (List.mem_map_of_mem Prod.fst hm2) hk.1
        · simpa [dGet, hka] using ih hk.2 hm2

/-- The per-user length sum is the length of the concatenation. -/
theorem roomConnSum_eq (users : List (Nat × UserConnection)) :
    roomConnSum users = (roomSocks users).length := by
  induction users with
  | nil => rfl
  | cons p rest ih =>
      simp only [roomConnSum, roomSocks, List.map_cons, List.sum_cons,
        List.flatMap_cons, List.length_append] at ih ⊢
      omega

/-- Whether any user of the room holds socket w. -/
def roomHasSock (users : List (Nat × UserConnection)) (w : Nat) : Bool :=
  users.any (fun p => decide (w ∈ p.2.connections))

theorem roomHasSock_iff (users : List (Nat × UserConnection)) (w : Nat) :
    roomHasSock users w = true ↔ w ∈ roomSocks users := by
  unfold roomHasSock roomSocks
  simp [List.any_eq_true, List.mem_flatMap]

/-- The currently-open sockets registered to room r. -/
def openSocksIn (world : World) (r : Nat) : List Nat :=
  world.opens.filter (fun w => roomHasSock (dGetD world.cm.rooms r []) w)

/-- Pairwise-disjoint, individually duplicate-free connection sets
concatenate to a duplicate-free list. -/
theorem roomSocks_nodup : ∀ (users : List (Nat × UserConnection)),
    (∀ p ∈ users, p.2.connections.Nodup) →
    List.Pairwise (fun p q : Nat × UserConnection =>
      ∀ w, w ∈ p.2.connections → w ∉ q.2.connections) users →
    (roomSocks users).Nodup
  | [], _, _ => by simp [roomSocks]
  | p :: rest, hconn, hpw => by
      rw [roomSocks, List.flatMap_cons, List.nodup_append]
      rcases List.pairwise_cons.1 hpw with ⟨hhead, htail⟩
      refine ⟨hconn p (List.mem_cons_self p rest), ?_, ?_⟩
      · exact roomSocks_nodup rest
          (fun q hq => hconn q (List.mem_cons_of_mem p hq)) htail
      · intro w hw hw2
        obtain ⟨q, hq, hwq⟩ := List.mem_flatMap.1 hw2
        exact hhead q hq w hw hwq

/-- Build a registration certificate from the two lookups. -/
theorem regB_intro (rooms : List (Nat × List (Nat × UserConnection)))
    (r u w : Nat) (users : List (Nat × UserConnection)) (uc : UserConnection)
    (hr : dGet rooms r = some users) (hu : dGet users u = some uc)
    (hw : w ∈ uc.connections) : regB rooms r u w = true := by
  unfold regB
  simp only [hr]
  unfold usersRegB
  simp only [hu, decide_eq_true_eq]
  exact hw

/-- C5 (amended): along any run of connect, switch_room and disconnect
operations that is well-formed - each connect presents a fresh socket, and
each switch_room or disconnect presents a socket whose only registration,
if any, sits at the slot the user_room_map (or the explicit room argument)
points the operation at - every room of the registry has no user with an
empty connection set, counts no socket twice, and the sum of its
connection-set sizes equals the number of currently-open sockets registered
to it.  Without that well-formedness restriction the property fails: a
multi-device switch_room removes the sockets the user_room_map points at
rather than the one presented, leaking closed sockets into the count. -/
theorem connection_count_amended (ops : List COp)
    (hWF : WFSeq initialWorld ops) (r : Nat)
    (users : List (Nat × UserConnection))
    (hr : dGet (runOps initialWorld ops).cm.rooms r = some users) :
    (∀ u uc, dGet users u = some uc → uc.connections ≠ []) ∧
    (roomSocks users).Nodup ∧
    roomConnSum users = (openSocksIn (runOps initialWorld ops) r).length := by
  obtain ⟨hA, hB, hC, hD⟩ := inv_runOps initialWorld ops inv_initial hWF
  have hkeys : (users.map Prod.fst).Nodup := hD r users hr
  have hconn : ∀ p ∈ users, p.2.connections.Nodup := by
    intro p hp
    exact (hA r users p.1 p.2 hr (dGet_fst_of_mem_nodup users hkeys p hp)).2
  have hpw0 : List.Pairwise (fun p q : Nat × UserConnection => p.1 ≠ q.1)
      users := List.pairwise_map.1 hkeys
  have hpw : List.Pairwise (fun p q : Nat × UserConnection =>
      ∀ w, w ∈ p.2.connections → w ∉ q.2.connections) users := by
    refine hpw0.imp_of_mem ?_
    intro p q hp hq hne w hwp hwq
    have h1 := regB_intro _ r p.1 w users p.2 hr
      (dGet_fst_of_mem_nodup users hkeys p hp) hwp
    have h2 := regB_intro _ r q.1 w users q.2 hr
      (dGet_fst_of_mem_nodup users hkeys q hq) hwq
    exact hne (hB r p.1 r q.1 w h1 h2).2
  have hnodup1 : (roomSocks users).Nodup := roomSocks_nodup users hconn hpw
  have hgd : dGetD (runOps initialWorld ops).cm.rooms r [] = users := by
    unfold dGetD
    rw [hr]
    rfl
  have hmem : ∀ w, w ∈ openSocksIn (runOps initialWorld ops) r ↔
      w ∈ roomSocks users := by
    intro w
    unfold openSocksIn
    rw [List.mem_filter, hgd]
    constructor
    · rintro ⟨-, hflag⟩
      exact (roomHasSock_iff _ _).1 hflag
    · intro hw
      obtain ⟨q, hq, hwq⟩ := List.mem_flatMap.1 hw
      refine ⟨?_, (roomHasSock_iff _ _).2 hw⟩
      exact hC r q.1 w (regB_intro _ r q.1 w users q.2 hr
        (dGet_fst_of_mem_nodup users hkeys q hq) hwq)
  have hnodup2 : (openSocksIn (runOps initialWorld ops) r).Nodup :=
    (opens_nodup initialWorld ops List.nodup_nil).filter _
  have hfin : (roomSocks users).toFinset =
      (openSocksIn (runOps initialWorld ops) r).toFinset := by
    ext w
    simp only [List.mem_toFinset]
    exact (hmem w).symm
  refine ⟨fun u uc hu => (hA r users u uc hr hu).1, hnodup1, ?_⟩
  calc roomConnSum users = (roomSocks users).length := roomConnSum_eq users
    _ = (roomSocks users).toFinset.card :=
        (List.toFinset_card_of_nodup hnodup1).symm
    _ = (openSocksIn (runOps initialWorld ops) r).toFinset.card := by
        rw [hfin]
    _ = (openSocksIn (runOps initialWorld ops) r).length :=
        List.toFinset_card_of_nodup hnodup2

/-- A concrete well-formed run: two users connect on distinct sockets,
user 1 switches to room 2, user 2 disconnects; room 2 then holds exactly
the one open socket. -/
def opsW : List COp :=
  [.conn 10 1 (some 1), .conn 11 2 (some 1), .switch 10 1 2,
   .disc 11 2 none]

def usersW : List (Nat × UserConnection) :=
  [(1, { user_id := 1, status := "active", last_active := 0,
         connections := [10] })]

theorem connection_count_amended_witness :
    WFSeq initialWorld opsW ∧
    dGet (runOps initialWorld opsW).cm.rooms 2 = some usersW ∧
    ((∀ u uc, dGet usersW u = some uc → uc.connections ≠ []) ∧
     (roomSocks usersW).Nodup ∧
     roomConnSum usersW = (openSocksIn (runOps initialWorld opsW) 2).length) :=
  ⟨by decide, by decide,
   connection_count_amended opsW (by decide) 2 usersW (by decide)⟩

/-! ### Message editing (ChatApp/ws_routes.py handle_message_edit)

A message document as the edit handler reads and writes it; ids stand for
ObjectId values, strings for their code-point sequences. -/

structure ReplyPayload where
  rcontent : Option (List Nat)
  rnonce : Option (List Nat)
  deriving DecidableEq

structure MessageDoc where
  mid : Nat
  user_id : Nat
  content : List Nat
  nonce : List Nat
  edited : Bool
  edited_at : Nat
  reply_to : Option ReplyPayload
  deriving DecidableEq

/-- The fields of the edit event the handler reads. -/
structure EditData where
  message_id : Option Nat
  content : Option (List Nat)
  reply_to : Option ReplyPayload
  deriving DecidableEq

/-- The plaintext edit notice the handler broadcasts to the room. -/
structure EditNotice where
  message_id : Nat
  content : List Nat
  edited_at : Nat
  deriving DecidableEq

/-- find_one on _id. -/
def dbFind (db : List MessageDoc) (i : Nat) : Option MessageDoc :=
  db.find? (fun m => m.mid == i)

/-- update_one with a $set of the edit fields: the first document whose _id
matches gets the new content, nonce, edited flag and timestamp, and - when
the event carried one - the (re-encrypted) reply payload. -/
def dbUpdateEdit : List MessageDoc → Nat → List Nat → List Nat → Nat →
    Option ReplyPayload → List MessageDoc
  | [], _, _, _, _, _ => []
  | m :: rest, i, c, n, t, rp =>
      if m.mid = i then
        ({ m with
            content := c
            nonce := n
            edited := true
            edited_at := t
            reply_to := (match rp with
              | some r => some r
              | none => m.reply_to) }) :: rest
      else m :: dbUpdateEdit rest i c n t rp

/-- ws_routes.py handle_message_edit: guard on the event fields, load the
message, reject any actor other than the stored author, otherwise re-encrypt
the new content (and a truthy reply payload) with the room key, persist the
$set, and broadcast the plaintext notice.  Returns the database, the
broadcasts made, and the encryption state. -/
def handle_message_edit (lib : CipherLib) (me : MessageEncryption)
    (db : List MessageDoc) (data : EditData) (user_id : Nat)
    (room_id : List Nat) (nonce rnonce : List Nat) (now : Nat) :
    List MessageDoc × List EditNotice × MessageEncryption :=
  match data.message_id, data.content with
  | some mid, some new_content =>
      if new_content = [] then (db, [], me)
      else
        match dbFind db mid with
        | none => (db, [], me)
        | some message =>
            if message.user_id ≠ user_id then (db, [], me)
            else
              let enc := encrypt_message lib me new_content room_id nonce now
              let rp : Option ReplyPayload × MessageEncryption :=
                match data.reply_to with
                | none => (none, enc.2)
                | some r =>
                    match r.rcontent with
                    | none => (some r, enc.2)
                    | some rc =>
                        if rc = [] then (some r, enc.2)
                        else
                          let renc := encrypt_message lib enc.2 rc room_id
                            rnonce now
                          (some { rcontent := some (renc.1).1,
                                  rnonce := some (renc.1).2 }, renc.2)
              (dbUpdateEdit db mid (enc.1).1 (enc.1).2 now rp.1,
               [{ message_id := mid, content := new_content,
                  edited_at := now }],
               rp.2)
  | _, _ => (db, [], me)

theorem dbFind_dbUpdateEdit_self (db : List MessageDoc) (i : Nat)
    (c n : List Nat) (t : Nat) (rp : Option ReplyPayload) (m : MessageDoc)
    (h : dbFind db i = some m) :
    dbFind (dbUpdateEdit db i c n t rp) i =
      some { m with
        content := c
        nonce := n
        edited := true
        edited_at := t
        reply_to := (match rp with
          | some r => some r
          | none => m.reply_to) } := by
  induction db with
  | nil => simp [dbFind] at h
  | cons m0 rest ih =>
      by_cases h0 : m0.mid = i
      · unfold dbFind at h
        rw [List.find?_cons_of_pos _ (by simp [h0])] at h
        obtain rfl := Option.some.injEq .. ▸ h
        simp only [dbUpdateEdit]
        rw [if_pos h0]
        unfold dbFind
        rw [List.find?_cons_of_pos _ (by simp [h0])]
      · unfold dbFind at h
        rw [List.find?_cons_of_neg _ (by simp [h0])] at h
        simp only [dbUpdateEdit]
        rw [if_neg h0]
        unfold dbFind
        rw [List.find?_cons_of_neg _ (by simp [h0])]
        exact ih h

theorem dbFind_dbUpdateEdit_ne (db : List MessageDoc) (i j : Nat)
    (c n : List Nat) (t : Nat) (rp : Option ReplyPayload) (hne : j ≠ i) :
    dbFind (dbUpdateEdit db i c n t rp) j = dbFind db j := by
  induction db with
  | nil => rfl
  | cons m0 rest ih =>
      simp only [dbUpdateEdit]
      by_cases h0 : m0.mid = i
      · rw [if_pos h0]
        unfold dbFind
        rw [List.find?_cons_of_neg _ (by simp [h0]; omega),
          List.find?_cons_of_neg _ (by simp [h0]; omega)]
      · rw [if_neg h0]
        unfold dbFind
        by_cases hj : m0.mid = j
        · rw [List.find?_cons_of_pos _ (by simp [hj]),
            List.find?_cons_of_pos _ (by simp [hj])]
        · rw [List.find?_cons_of_neg _ (by simp [hj]),
            List.find?_cons_of_neg _ (by simp [hj])]
          exact ih

/-- C6: ownership is checked against the author id stored on the message,
not the connection: an edit by any other actor leaves the database, the
broadcast list and the encryption state untouched; an edit by the author
persists the re-encrypted content (with edited flag and timestamp, other
documents unchanged) and broadcasts exactly one plaintext edit notice. -/
theorem message_edit_author_only (lib : CipherLib) (me : MessageEncryption)
    (db : List MessageDoc) (data : EditData) (user_id : Nat)
    (room_id : List Nat) (nonce rnonce : List Nat) (now : Nat) :
    (∀ mid message, data.message_id = some mid →
        dbFind db mid = some message → message.user_id ≠ user_id →
        handle_message_edit lib me db data user_id room_id nonce rnonce now =
          (db, [], me)) ∧
    (∀ mid new_content message, data.message_id = some mid →
        data.content = some new_content → new_content ≠ [] →
        dbFind db mid = some message → message.user_id = user_id →
        (handle_message_edit lib me db data user_id room_id nonce rnonce
            now).2.1 =
          [{ message_id := mid, content := new_content, edited_at := now }] ∧
        (∃ d, dbFind (handle_message_edit lib me db data user_id room_id nonce
            rnonce now).1 mid = some d ∧
          d.content =
            (encrypt_message lib me new_content room_id nonce now).1.1 ∧
          d.nonce =
            (encrypt_message lib me new_content room_id nonce now).1.2 ∧
          d.edited = true ∧ d.edited_at = now) ∧
        (∀ j, j ≠ mid → dbFind (handle_message_edit lib me db data user_id
            room_id nonce rnonce now).1 j = dbFind db j)) := by
  constructor
  · intro mid message hmid hfind hne
    cases hdc : data.content with
    | none => simp only [handle_message_edit, hmid, hdc]
    | some nc =>
        by_cases hnc : nc = []
        · simp only [handle_message_edit, hmid, hdc]
          rw [if_pos hnc]
        · simp only [handle_message_edit, hmid, hdc]
          rw [if_neg hnc]
          simp only [hfind]
          rw [if_pos hne]
  · intro mid nc message hmid hdc hne hfind hu
    simp only [handle_message_edit, hmid, hdc]
    rw [if_neg hne]
    simp only [hfind]
    rw [if_neg (by simp [hu])]
    refine ⟨rfl,
      ⟨_, dbFind_dbUpdateEdit_self db mid _ _ now _ message hfind,
        rfl, rfl, rfl, rfl⟩,
      fun j hj => dbFind_dbUpdateEdit_ne db mid j _ _ now _ hj⟩

def dbC6 : List MessageDoc :=
  [{ mid := 5, user_id := 1, content := [99], nonce := [0], edited := false,
     edited_at := 0, reply_to := none }]

def dataC6 : EditData :=
  { message_id := some 5, content := some [104, 105], reply_to := none }

theorem message_edit_author_only_witness :
    handle_message_edit lib0 meEmpty dbC6 dataC6 2 [114] [1] [2] 7 =
      (dbC6, [], meEmpty) ∧
    (handle_message_edit lib0 meEmpty dbC6 dataC6 1 [114] [1] [2] 7).2.1 =
      [{ message_id := 5, content := [104, 105], edited_at := 7 }] :=
  ⟨(message_edit_author_only lib0 meEmpty dbC6 dataC6 2 [114] [1] [2] 7).1
      5 { mid := 5, user_id := 1, content := [99], nonce := [0],
          edited := false, edited_at := 0, reply_to := none }
      rfl (by decide) (by decide),
   ((message_edit_author_only lib0 meEmpty dbC6 dataC6 1 [114] [1] [2] 7).2
      5 [104, 105]
      { mid := 5, user_id := 1, content := [99], nonce := [0],
        edited := false, edited_at := 0, reply_to := none }
      rfl rfl (by decide) (by decide) rfl).1⟩

/-! ### Read receipts (ChatApp/ws_routes.py handle_read_receipt)

A message document as the receipt handler sees it, and the sequential
semantics of the single bulk_write of UpdateOne($addToSet) operations. -/

structure RMsg where
  mid : Nat
  room_id : List Nat
  read_by : List Nat
  deriving DecidableEq

structure ReadReceiptEvent where
  message_ids : List (Option Nat)
  read_by : Nat
  room_id : List Nat
  deriving DecidableEq

/-- One UpdateOne({_id, room_id}, {$addToSet: {read_by: user}}): the first
document matching both keys gains the reader unless already present; the
second component counts modified documents (0 or 1). -/
def rdbUpdate : List RMsg → Nat → List Nat → Nat → List RMsg × Nat
  | [], _, _, _ => ([], 0)
  | m :: rest, i, room, u =>
      if m.mid = i ∧ m.room_id = room then
        if u ∈ m.read_by then (m :: rest, 0)
        else (({ m with read_by := m.read_by ++ [u] }) :: rest, 1)
      else
        ((m :: (rdbUpdate rest i room u).1), (rdbUpdate rest i room u).2)

/-- bulk_write of the UpdateOne list: sequential application, summing
modified_count. -/
def bulkWrite : List RMsg → List Nat → List Nat → Nat → List RMsg × Nat
  | db, [], _, _ => (db, 0)
  | db, i :: ops, room, u =>
      ((bulkWrite (rdbUpdate db i room u).1 ops room u).1,
       (rdbUpdate db i room u).2 +
         (bulkWrite (rdbUpdate db i room u).1 ops room u).2)

theorem rdbUpdate_zero_fix (db : List RMsg) (i : Nat) (room : List Nat)
    (u : Nat) (h : (rdbUpdate db i room u).2 = 0) :
    (rdbUpdate db i room u).1 = db := by
  induction db with
  | nil => rfl
  | cons m rest ih =>
      simp only [rdbUpdate] at h ⊢
      by_cases hm : m.mid = i ∧ m.room_id = room
      · rw [if_pos hm] at h ⊢
        by_cases hu : u ∈ m.read_by
        · rw [if_pos hu]
        · rw [if_neg hu] at h
          exact absurd h one_ne_zero
      · rw [if_neg hm] at h ⊢
        have := ih h
        simp [this]

theorem rdbUpdate_idem (db : List RMsg) (i : Nat) (room : List Nat)
    (u : Nat) : (rdbUpdate (rdbUpdate db i room u).1 i room u).2 = 0 := by
  induction db with
  | nil => rfl
  | cons m rest ih =>
      simp only [rdbUpdate]
      by_cases hm : m.mid = i ∧ m.room_id = room
      · rw [if_pos hm]
        by_cases hu : u ∈ m.read_by
        · rw [if_pos hu]
          show (rdbUpdate (m :: rest) i room u).2 = 0
          simp only [rdbUpdate]
          rw [if_pos hm, if_pos hu]
        · rw [if_neg hu]
          show (rdbUpdate _ i room u).2 = 0
          simp only [rdbUpdate]
          rw [if_pos (by simpa using hm), if_pos (by simp)]
      · rw [if_neg hm]
        show (rdbUpdate _ i room u).2 = 0
        simp only [rdbUpdate]
        rw [if_neg hm]
        exact ih

theorem rdbUpdate_zero_stable (db : List RMsg) (i j : Nat) (room : List Nat)
    (u : Nat) (h : (rdbUpdate db i room u).2 = 0) :
    (rdbUpdate (rdbUpdate db j room u).1 i room u).2 = 0 := by
  induction db with
  | nil => rfl
  | cons m rest ih =>
      simp only [rdbUpdate]
      by_cases hmj : m.mid = j ∧ m.room_id = room
      · rw [if_pos hmj]
        by_cases hu : u ∈ m.read_by
        · rw [if_pos hu]
          exact h
        · rw [if_neg hu]
          show (rdbUpdate _ i room u).2 = 0
          simp only [rdbUpdate]
          by_cases hmi : m.mid = i ∧ m.room_id = room
          · rw [if_pos (by simpa using hmi), if_pos (by simp)]
          · rw [if_neg (by simpa using hmi)]
            have h2 : (rdbUpdate rest i room u).2 = 0 := by
              simp only [rdbUpdate] at h
              rw [if_neg hmi] at h
              exact h
            exact h2
      · rw [if_neg hmj]
        show (rdbUpdate _ i room u).2 = 0
        simp only [rdbUpdate]
        by_cases hmi : m.mid = i ∧ m.room_id = room
        · rw [if_pos hmi]
          by_cases hu : u ∈ m.read_by
          · rw [if_pos hu]
          · exfalso
            simp only [rdbUpdate] at h
            rw [if_pos hmi, if_neg hu] at h
            exact one_ne_zero h
        · rw [if_neg hmi]
          have h2 : (rdbUpdate rest i room u).2 = 0 := by
            simp only [rdbUpdate] at h
            rw [if_neg hmi] at h
            exact h
          exact ih h2

theorem bulkWrite_zero_stable (ops : List Nat) (db : List RMsg) (i : Nat)
    (room : List Nat) (u : Nat) (h : (rdbUpdate db i room u).2 = 0) :
    (rdbUpdate (bulkWrite db ops room u).1 i room u).2 = 0 := by
  induction ops generalizing db with
  | nil => exact h
  | cons j ops ih =>
      show (rdbUpdate (bulkWrite (rdbUpdate db j room u).1 ops room u).1
        i room u).2 = 0
      exact ih _ (rdbUpdate_zero_stable db i j room u h)

theorem bulkWrite_all_zero (ops : List Nat) (db : List RMsg)
    (room : List Nat) (u : Nat)
    (hall : ∀ i ∈ ops, (rdbUpdate db i room u).2 = 0) :
    bulkWrite db ops room u = (db, 0) := by
  induction ops with
  | nil => rfl
  | cons j ops ih =>
      have h0 := hall j (List.mem_cons_self j ops)
      have hfix := rdbUpdate_zero_fix db j room u h0
      simp only [bulkWrite, hfix, h0]
      rw [ih (fun i hi => hall i (List.mem_cons_of_mem j hi))]
      rfl

theorem bulkWrite_saturates (ops : List Nat) (db : List RMsg)
    (room : List Nat) (u : Nat) :
    ∀ i ∈ ops, (rdbUpdate (bulkWrite db ops room u).1 i room u).2 = 0 := by
  induction ops generalizing db with
  | nil => intro i hi; cases hi
  | cons j ops ih =>
      intro i hi
      rcases List.mem_cons.1 hi with rfl | hi2
      · show (rdbUpdate (bulkWrite (rdbUpdate db i room u).1 ops room u).1
          i room u).2 = 0
        exact bulkWrite_zero_stable ops _ i room u (rdbUpdate_idem db i room u)
      · show (rdbUpdate (bulkWrite (rdbUpdate db j room u).1 ops room u).1
          i room u).2 = 0
        exact ih _ i hi2

/-- Applying the same bulk a second time modifies nothing. -/
theorem bulkWrite_twice (ops : List Nat) (db : List RMsg) (room : List Nat)
    (u : Nat) :
    bulkWrite (bulkWrite db ops room u).1 ops room u =
      ((bulkWrite db ops room u).1, 0) :=
  bulkWrite_all_zero ops _ room u (bulkWrite_saturates ops db room u)

/-- ws_routes.py handle_read_receipt: early return on an empty id list,
invalid ObjectIds dropped while building the bulk, one bulk_write, and a
read_receipt broadcast only when modified_count > 0.  An invalid id is
modelled as none.  Returns the database, the broadcasts made, and the
reported updated count. -/
def handle_read_receipt (db : List RMsg) (user_id : Nat) (room_id : List Nat)
    (message_ids : List (Option Nat)) :
    List RMsg × List ReadReceiptEvent × Nat :=
  if message_ids = [] then (db, [], 0)
  else if message_ids.filterMap id = [] then (db, [], 0)
  else
    if 0 < (bulkWrite db (message_ids.filterMap id) room_id user_id).2 then
      ((bulkWrite db (message_ids.filterMap id) room_id user_id).1,
       [{ message_ids := message_ids, read_by := user_id,
          room_id := room_id }],
       (bulkWrite db (message_ids.filterMap id) room_id user_id).2)
    else
      ((bulkWrite db (message_ids.filterMap id) room_id user_id).1, [],
       (bulkWrite db (message_ids.filterMap id) room_id user_id).2)

theorem filterMap_id_map_some {α : Type} (l : List α) :
    (l.map some).filterMap id = l := by
  induction l with
  | nil => rfl
  | cons x xs ih => simp [List.filterMap_cons, ih]

/-- C7: a read_receipt broadcast goes out if and only if the bulk update
modified at least one document, and then it is the single read_receipt
event; ids that are not valid object ids are skipped without failing the
batch (the database and reported count match those of the valid ids alone);
and resubmitting the same id list modifies nothing and triggers no second
broadcast. -/
theorem read_receipt_spec (db : List RMsg) (user_id : Nat)
    (room_id : List Nat) (message_ids : List (Option Nat)) :
    ((handle_read_receipt db user_id room_id message_ids).2.1 ≠ [] ↔
      0 < (handle_read_receipt db user_id room_id message_ids).2.2) ∧
    ((handle_read_receipt db user_id room_id message_ids).2.1 = [] ∨
      (handle_read_receipt db user_id room_id message_ids).2.1 =
        [{ message_ids := message_ids, read_by := user_id,
           room_id := room_id }]) ∧
    ((handle_read_receipt db user_id room_id message_ids).1 =
        (handle_read_receipt db user_id room_id
          ((message_ids.filterMap id).map some)).1 ∧
      (handle_read_receipt db user_id room_id message_ids).2.2 =
        (handle_read_receipt db user_id room_id
          ((message_ids.filterMap id).map some)).2.2) ∧
    (handle_read_receipt (handle_read_receipt db user_id room_id
        message_ids).1 user_id room_id message_ids).2.1 = [] := by
  by_cases h1 : message_ids = []
  · subst h1
    simp [handle_read_receipt]
  · by_cases h2 : message_ids.filterMap id = []
    · simp only [handle_read_receipt, if_neg h1, if_pos h2, h2]
      simp [handle_read_receipt]
    · have hmapped : (message_ids.filterMap id).map some ≠ [] := by
        simp [h2]
      have hfm : ((message_ids.filterMap id).map some).filterMap id =
          message_ids.filterMap id := filterMap_id_map_some _
      by_cases h3 :
          0 < (bulkWrite db (message_ids.filterMap id) room_id user_id).2
      · simp only [handle_read_receipt, if_neg h1, if_neg h2, if_pos h3,
          if_neg hmapped, hfm]
        refine ⟨by simp [h3], Or.inr trivial, ⟨trivial, trivial⟩, ?_⟩
        simp only [if_neg h1, if_neg h2, bulkWrite_twice]
        simp
      · simp only [handle_read_receipt, if_neg h1, if_neg h2, if_neg h3,
          if_neg hmapped, hfm]
        refine ⟨by simpa using h3, Or.inl trivial, ⟨trivial, trivial⟩, ?_⟩
        simp only [if_neg h1, if_neg h2, bulkWrite_twice]
        simp

/-! ### The websocket receive loops (ws_endpoint.py and ws_routes.py)

One iteration of each loop, abstracted over what the frame parsed to: the
"ping" fast path, undecodable JSON, or a JSON object with an optional
"type" field and the presence or absence of a "content" field. -/

structure WsEvent where
  etype : Option String
  hasContent : Bool
  deriving DecidableEq

inductive Frame where
  | ping
  | notJson
  | json (e : WsEvent)
  deriving DecidableEq

/-- What one loop iteration did: the types of the events the loop itself
sent back to the sender, whether the event reached a handler or task, and
whether the loop proceeds to the next frame. -/
structure StepOut where
  replies : List String
  dispatched : Bool
  continues : Bool
  deriving DecidableEq

/-- The handlers mapping of ws_endpoint.py websocket_endpoint (no
"message" key: new messages are validated inline in the loop). -/
def wsEndpointHandlers : List String :=
  ["typing_status", "add_emoji_reaction", "edit_message", "delete_message",
   "read_receipt", "presence_update"]

/-- The handlers mapping of ws_routes.py websocket_endpoint ("message"
included: new messages go straight to handle_new_message). -/
def wsRoutesHandlers : List String :=
  ["typing_status", "add_emoji_reaction", "edit_message", "delete_message",
   "read_receipt", "presence_update", "message"]

/-- One iteration of the ws_endpoint.py (and main.py) loop: ping fast
path; JSONDecodeError continue; known handler types dispatched; a
"message" event missing content answered with an explicit error event;
anything else printed and dropped; every branch continues the loop. -/
def websocket_endpoint_step (handlers : List String) (f : Frame) : StepOut :=
  match f with
  | .ping => ⟨[], true, true⟩
  | .notJson => ⟨[], false, true⟩
  | .json e =>
      match e.etype with
      | none => ⟨[], false, true⟩
      | some t =>
          if t ∈ handlers then ⟨[], true, true⟩
          else if t = "message" then
            (match e.hasContent with
             | true => ⟨[], true, true⟩
             | false => ⟨["error"], false, true⟩)
          else ⟨[], false, true⟩

/-- One iteration of the ws_routes.py loop: ping fast path;
JSONDecodeError continue; any type found in the mapping dispatched (a
"message" event goes to handle_new_message, content checked only inside
that handler, whose ValueError is caught and printed there); unknown types
printed and dropped; every branch continues the loop.  The loop itself
never sends anything back to the sender. -/
def ws_routes_websocket_endpoint_step (handlers : List String) (f : Frame) :
    StepOut :=
  match f with
  | .ping => ⟨[], true, true⟩
  | .notJson => ⟨[], false, true⟩
  | .json e =>
      match e.etype with
      | none => ⟨[], false, true⟩
      | some t =>
          if t ∈ handlers then ⟨[], true, true⟩ else ⟨[], false, true⟩

/-- C9 does not hold of the ws_routes.py loop: a "message" event with no
content field is dispatched to handle_new_message with no error event
sent back to the sender (handle_new_message holds no reference to the
websocket, so no reply can follow either), while the ws_endpoint.py loop
answers the same event with an explicit error event. -/
theorem missing_content_counterexample :
    (ws_routes_websocket_endpoint_step wsRoutesHandlers
        (.json { etype := some "message", hasContent := false })).replies =
      [] ∧
    (ws_routes_websocket_endpoint_step wsRoutesHandlers
        (.json { etype := some "message", hasContent := false })).dispatched =
      true ∧
    (websocket_endpoint_step wsEndpointHandlers
        (.json { etype := some "message", hasContent := false })).replies =
      ["error"] := by decide

/-- C9 (amended): in both loops no frame stops the loop, non-JSON input is
dropped with no reply and no dispatch; the explicit error reply to a
content-less "message" event exists only in the ws_endpoint.py / main.py
loop, which answers it with exactly one error event and dispatches
nothing; in that loop a JSON event with a missing "type" field or a type
neither in the handlers mapping nor equal to "message" is also silently
dropped - no reply, no dispatch - and in fact the only frame it ever
replies to is a content-less "message" event; the ws_routes.py loop never
replies to the sender at all - its content-less "message" events are
passed to handle_new_message, which swallows the validation error. -/
theorem malformed_event_handling_amended (f : Frame) (e : WsEvent) :
    ((websocket_endpoint_step wsEndpointHandlers f).continues = true ∧
     (ws_routes_websocket_endpoint_step wsRoutesHandlers f).continues =
       true) ∧
    ((websocket_endpoint_step wsEndpointHandlers Frame.notJson).replies =
       [] ∧
     (websocket_endpoint_step wsEndpointHandlers
        Frame.notJson).dispatched = false ∧
     (ws_routes_websocket_endpoint_step wsRoutesHandlers
        Frame.notJson).replies = [] ∧
     (ws_routes_websocket_endpoint_step wsRoutesHandlers
        Frame.notJson).dispatched = false) ∧
    (e.etype = some "message" → e.hasContent = false →
      (websocket_endpoint_step wsEndpointHandlers (.json e)).replies =
        ["error"] ∧
      (websocket_endpoint_step wsEndpointHandlers (.json e)).dispatched =
        false) ∧
    (ws_routes_websocket_endpoint_step wsRoutesHandlers f).replies = [] ∧
    (e.etype = none →
      (websocket_endpoint_step wsEndpointHandlers (.json e)).replies = [] ∧
      (websocket_endpoint_step wsEndpointHandlers (.json e)).dispatched =
        false) ∧
    (∀ t, e.etype = some t → t ∉ wsEndpointHandlers → t ≠ "message" →
      (websocket_endpoint_step wsEndpointHandlers (.json e)).replies = [] ∧
      (websocket_endpoint_step wsEndpointHandlers (.json e)).dispatched =
        false) ∧
    (∀ g : Frame,
      (websocket_endpoint_step wsEndpointHandlers g).replies ≠ [] →
      ∃ e0, g = Frame.json e0 ∧ e0.etype = some "message" ∧
        e0.hasContent = false) := by
  refine ⟨⟨?_, ?_⟩, ⟨rfl, rfl, rfl, rfl⟩, ?_, ?_, ?_, ?_, ?_⟩
  · cases f with
    | ping => rfl
    | notJson => rfl
    | json e0 =>
        cases he : e0.etype with
        | none => simp [websocket_endpoint_step, he]
        | some t =>
            simp only [websocket_endpoint_step, he]
            by_cases h1 : t ∈ wsEndpointHandlers
            · rw [if_pos h1]
            · rw [if_neg h1]
              by_cases h2 : t = "message"
              · rw [if_pos h2]
                cases e0.hasContent <;> rfl
              · rw [if_neg h2]
  · cases f with
    | ping => rfl
    | notJson => rfl
    | json e0 =>
        cases he : e0.etype with
        | none => simp [ws_routes_websocket_endpoint_step, he]
        | some t =>
            simp only [ws_routes_websocket_endpoint_step, he]
            by_cases h1 : t ∈ wsRoutesHandlers
            · rw [if_pos h1]
            · rw [if_neg h1]
  · intro ht hc
    simp only [websocket_endpoint_step, ht, hc]
    rw [if_neg (by decide)]
    exact ⟨rfl, rfl⟩
  · cases f with
    | ping => rfl
    | notJson => rfl
    | json e0 =>
        cases he : e0.etype with
        | none => simp [ws_routes_websocket_endpoint_step, he]
        | some t =>
            simp only [ws_routes_websocket_endpoint_step, he]
            by_cases h1 : t ∈ wsRoutesHandlers
            · rw [if_pos h1]
            · rw [if_neg h1]
  · intro hnone
    simp only [websocket_endpoint_step, hnone]
    exact ⟨trivial, trivial⟩
  · intro t ht h1 h2
    simp only [websocket_endpoint_step, ht]
    rw [if_neg h1, if_neg h2]
    exact ⟨rfl, rfl⟩
  · intro g hne
    cases g with
    | ping => exact absurd rfl hne
    | notJson => exact absurd rfl hne
    | json e0 =>
        cases he : e0.etype with
        | none =>
            exfalso
            apply hne
            simp [websocket_endpoint_step, he]
        | some t =>
            by_cases h1 : t ∈ wsEndpointHandlers
            · exfalso
              apply hne
              simp only [websocket_endpoint_step, he]
              rw [if_pos h1]
            · by_cases h2 : t = "message"
              · cases hc : e0.hasContent with
                | true =>
                    exfalso
                    apply hne
                    simp only [websocket_endpoint_step, he, hc]
                    rw [if_neg h1, if_pos h2]
                | false =>
                    subst h2
                    exact ⟨e0, rfl, he, hc⟩
              · exfalso
                apply hne
                simp only [websocket_endpoint_step, he]
                rw [if_neg h1, if_neg h2]

theorem malformed_event_handling_amended_witness :
    ({ etype := some "message", hasContent := false } : WsEvent).etype =
      some "message" ∧
    (websocket_endpoint_step wsEndpointHandlers
        (.json { etype := some "message", hasContent := false })).replies =
      ["error"] :=
  ⟨rfl, ((malformed_event_handling_amended Frame.notJson
      { etype := some "message", hasContent := false }).2.2.1 rfl rfl).1⟩

theorem broadcast_spec_witness :
    (dMem emptyManager.rooms 9 = false ∧
      broadcast emptyManager (37 : Nat) (fun n => [n]) 9 none = []) ∧
    (dGet cmC2.rooms 1 = some [(1, ⟨1, "active", 0, [10]⟩),
        (2, ⟨2, "active", 0, [20]⟩)] ∧
      (20, [5]) ∈ broadcast cmC2 (5 : Nat) (fun n => [n]) 1 (some 1)) :=
  ⟨⟨rfl, broadcast_spec.1 Nat emptyManager 37 (fun n => [n]) 9 none rfl⟩,
   ⟨rfl, broadcast_spec.2.2.1 Nat cmC2 5 (fun n => [n]) 1 (some 1)
      [(1, ⟨1, "active", 0, [10]⟩), (2, ⟨2, "active", 0, [20]⟩)]
      2 ⟨2, "active", 0, [20]⟩ 20 rfl (by decide) (by decide) (by decide)⟩⟩

end ChannelChat
